import Mathlib

/-
  Verification development for the interactive map's core data store.

  The embedding translates the JavaScript classes of the repository
  (IAMMapTable, IAMStorage, the domain record classes Feature/ExtendedFeature,
  FeatureProperty, FeatureAttribute, FeatureSettings with its Point/LineString/
  Polygon specializations, Border, Color, TextSettings, the ProcessResult
  accumulator and the CSV parsing helpers) into pure Lean definitions.

  Modelling conventions, used throughout:
  * JavaScript Map objects are insertion-ordered maps with unique keys; they are
    modelled as association lists (List (JSKey × β)) where set updates an
    existing binding in place (preserving its position) and otherwise appends.
  * JavaScript numbers are modelled as Int (all numeric values the claims touch
    are integers); Color.alpha is modelled as ℚ.  Coordinates are modelled as
    WithTop Int, with ⊤ playing the role of Infinity produced by the
    min-computations on empty arrays.
  * undefined-able fields are Option values; "field defined" means Option.isSome.
  * Strings returned by the translation lookup IAMTranslatorFactory.getMsg are
    the lookup keys themselves (the translator is an identity-like lookup table
    and no claim depends on translated text).
-/

namespace IAM

/-- A key stored in one level of the nested Map table: the JavaScript values
used as keys in this repository are numbers, strings, or undefined
(e.g. a FeatureSettings levelValue that was never set). -/
inductive JSKey where
  | num : Int → JSKey
  | str : String → JSKey
  | undefinedKey : JSKey
deriving DecidableEq

def optStrKey : Option String → JSKey
  | some s => .str s
  | none => .undefinedKey

/-- JavaScript Map.get: first (unique) binding of the key. -/
def mapGet {β : Type} (m : List (JSKey × β)) (k : JSKey) : Option β :=
  (m.find? (fun e => e.1 == k)).map Prod.snd

/-- JavaScript Map.set: replace the existing binding in place (keeping its
position in iteration order), otherwise append a new binding. -/
def mapSet {β : Type} (m : List (JSKey × β)) (k : JSKey) (v : β) : List (JSKey × β) :=
  if m.any (fun e => e.1 == k) then
    m.map (fun e => if e.1 == k then (k, v) else e)
  else
    m ++ [(k, v)]

/-- The recursive Map structure of IAMMapTable: every level below the root is
either another Map or, at the terminal level, the list of stored records. -/
inductive MTree (α : Type) where
  | leaf : List α → MTree α
  | node : List (JSKey × MTree α) → MTree α

/-- The terminal-level overwrite step of IAMMapTable._addItem: every stored
record that .equals() the new item is replaced in place by the new item; if
none did, the new item is appended. -/
def replaceOrAppend {α : Type} (eqb : α → α → Bool) (item : α) (l : List α) : List α :=
  if l.any (fun stored => eqb stored item) then
    l.map (fun stored => if eqb stored item then item else stored)
  else
    l ++ [item]

/-- IAMMapTable._addItem.  The JavaScript recursion is driven by the index into
primaryKeys; here it is driven structurally by the list of key extractors.
The two branches marked unreachable correspond to a level mismatch (a Map where
the terminal list is expected or vice versa), which cannot occur in any table
built by these operations; the embedding leaves the table unchanged there. -/
def addItemM {α : Type} (eqb : α → α → Bool) (item : α) :
    List (α → JSKey) → List (JSKey × MTree α) → List (JSKey × MTree α)
  | [], m => m
  | [k], m =>
    match mapGet m (k item) with
    | some (.leaf l) => mapSet m (k item) (.leaf (replaceOrAppend eqb item l))
    | some (.node _) => m
    | none => mapSet m (k item) (.leaf [item])
  | k :: k2 :: ks, m =>
    match mapGet m (k item) with
    | some (.node m2) => mapSet m (k item) (.node (addItemM eqb item (k2 :: ks) m2))
    | some (.leaf _) => m
    | none => mapSet m (k item) (.node (addItemM eqb item (k2 :: ks) []))

/-- IAMMapTable: an ordered multi-key table.  The equals function lives on the
stored records in JavaScript; the embedding passes it to the operations that
use it. -/
structure IAMMapTable (α : Type) where
  primaryKeys : List (α → JSKey)
  mapTable : List (JSKey × MTree α)

def emptyTable {α : Type} (keys : List (α → JSKey)) : IAMMapTable α :=
  { primaryKeys := keys, mapTable := [] }

def IAMMapTable.addItem {α : Type} (t : IAMMapTable α) (eqb : α → α → Bool) (item : α) :
    IAMMapTable α :=
  { t with mapTable := addItemM eqb item t.primaryKeys t.mapTable }

/-- IAMMapTable._getItem.  The JavaScript code returns the stored empty list
itself (a truthy value) when a terminal slot holds an empty list, but addItem
never creates an empty terminal list, so the embedding collapses that case to
undefined (none); likewise for level mismatches, which only arise on malformed
tables. -/
def getItemM {α : Type} : List JSKey → List (JSKey × MTree α) → Option α
  | [v], m =>
    match mapGet m v with
    | some (.leaf l) => l.head?
    | some (.node _) => none
    | none => none
  | v :: v2 :: vs, m =>
    match mapGet m v with
    | some (.node m2) => getItemM (v2 :: vs) m2
    | some (.leaf _) => none
    | none => none
  | [], _ => none

def IAMMapTable.getItem {α : Type} (t : IAMMapTable α) (values : List JSKey) : Option α :=
  getItemM values t.mapTable

/-- A filter for one primary-key level of getAllItems/getAllKeys: either a
predicate on the key value or undefined (accept every key). -/
abbrev KeyFilter := Option (JSKey → Bool)

def filterEntries {β : Type} (f : KeyFilter) (m : List (JSKey × β)) : List (JSKey × β) :=
  match f with
  | some p => m.filter (fun e => p e.1)
  | none => m

/-- IAMMapTable._getAllItems followed by the flat(Infinity) of getAllItems:
descend level by level applying the filters and concatenate the terminal lists
of all surviving branches in depth-first (insertion) order.  Level mismatches
(unreachable on tables built by addItem) contribute nothing. -/
def getAllItemsRec {α : Type} : List KeyFilter → List (JSKey × MTree α) → List α
  | [], _ => []
  | [f], m =>
    (filterEntries f m).flatMap (fun e =>
      match e.2 with
      | .leaf l => l
      | .node _ => [])
  | f :: f2 :: fs, m =>
    (filterEntries f m).flatMap (fun e =>
      match e.2 with
      | .node m2 => getAllItemsRec (f2 :: fs) m2
      | .leaf _ => [])

/-- IAMMapTable.getAllItems: a filter array whose length differs from the
number of primary keys yields the empty result. -/
def IAMMapTable.getAllItems {α : Type} (t : IAMMapTable α) (filters : List KeyFilter) :
    List α :=
  if filters.length ≠ t.primaryKeys.length then [] else getAllItemsRec filters t.mapTable

/-- Deduplication performed by the result Map of getAllKeys: keys are kept in
first-occurrence order. -/
def dedupKeysAux : List JSKey → List JSKey → List JSKey
  | [], acc => acc.reverse
  | k :: ks, acc => if acc.contains k then dedupKeysAux ks acc else dedupKeysAux ks (k :: acc)

def dedupKeys (l : List JSKey) : List JSKey := dedupKeysAux l []

/-- IAMMapTable._getAllKeys.  There is no arity check: the recursion stops at
level (filters.length - 1) wherever that lands.  When the recursion would step
past the terminal record lists (filter arrays longer than the key count, or an
empty filter array on a populated table) the JavaScript code dereferences the
record lists as Maps; those branches are modelled as none and are not relied
on by any theorem. -/
def getAllKeysRec {α : Type} : List KeyFilter → List (JSKey × MTree α) → Option (List JSKey)
  | [], _ => none
  | [f], m => some ((filterEntries f m).map Prod.fst)
  | f :: f2 :: fs, m =>
    ((filterEntries f m).mapM (fun (e : JSKey × MTree α) =>
      match e.2 with
      | .node m2 => getAllKeysRec (f2 :: fs) m2
      | .leaf _ => none)).map List.flatten

def IAMMapTable.getAllKeys {α : Type} (t : IAMMapTable α) (filters : List KeyFilter) :
    Option (List JSKey) :=
  (getAllKeysRec filters t.mapTable).map dedupKeys

/-- The terminal record list reached by descending the given full key path
(empty when the path is absent); used to state invariants about terminal
slots. -/
def slotListM {α : Type} : List JSKey → List (JSKey × MTree α) → List α
  | [v], m =>
    match mapGet m v with
    | some (.leaf l) => l
    | _ => []
  | v :: v2 :: vs, m =>
    match mapGet m v with
    | some (.node m2) => slotListM (v2 :: vs) m2
    | _ => []
  | [], _ => []

/-- The full key tuple of a record, as extracted by the table's primary keys. -/
def keyPath {α : Type} (keys : List (α → JSKey)) (item : α) : List JSKey :=
  keys.map (fun k => k item)

/-- Distinctness of the keys of one Map level (JavaScript Maps cannot hold a
key twice; the association-list model preserves this through mapSet). -/
def distinctKeys {β : Type} : List (JSKey × β) → Bool
  | [] => true
  | e :: rest => !(rest.any (fun e2 => e2.1 == e.1)) && distinctKeys rest

/-- Well-formedness of a table body: every level is a Map with distinct keys,
the nesting depth matches the number of primary keys everywhere, and every
record stored in a terminal list satisfies the accumulated prefix predicate,
i.e. its extracted keys spell exactly the path leading to its slot.  Every
table built from empty by addItem satisfies this. -/
def wfm {α : Type} (pfx : α → Bool) : List (α → JSKey) → List (JSKey × MTree α) → Bool
  | [k], m =>
    distinctKeys m &&
    m.all (fun e =>
      match e.2 with
      | .leaf l => l.all (fun x => pfx x && (k x == e.1))
      | .node _ => false)
  | k :: k2 :: ks, m =>
    distinctKeys m &&
    m.all (fun e =>
      match e.2 with
      | .node m2 => wfm (fun x => pfx x && (k x == e.1)) (k2 :: ks) m2
      | .leaf _ => false)
  | [], _ => false

/-- In-place mutation of the first record of a terminal slot (the record object
returned by getItem), as performed by ExtendedFeature.addProperty/addAttribute
on the feature object stored in the features table. -/
def headUpd {α : Type} (g : α → α) : List α → List α
  | [] => []
  | x :: xs => g x :: xs

def updateHeadM {α : Type} : List JSKey → (α → α) → List (JSKey × MTree α) → List (JSKey × MTree α)
  | [v], g, m =>
    match mapGet m v with
    | some (.leaf l) => mapSet m v (.leaf (headUpd g l))
    | _ => m
  | v :: v2 :: vs, g, m =>
    match mapGet m v with
    | some (.node m2) => mapSet m v (.node (updateHeadM (v2 :: vs) g m2))
    | _ => m
  | [], _, m => m

/-- Mutation of every stored record (the getAllFeatures().forEach(clear...)
pattern used by the DROPTABLE modes of the property/attribute loaders). -/
def mapItemsM {α : Type} (g : α → α) : List (α → JSKey) → List (JSKey × MTree α) → List (JSKey × MTree α)
  | [_], m =>
    m.map (fun e => (e.1,
      match e.2 with
      | .leaf l => .leaf (l.map g)
      | .node m2 => .node m2))
  | _ :: k2 :: ks, m =>
    m.map (fun e => (e.1,
      match e.2 with
      | .node m2 => .node (mapItemsM g (k2 :: ks) m2)
      | .leaf l => .leaf l))
  | [], m => m

def IAMMapTable.mapItems {α : Type} (t : IAMMapTable α) (g : α → α) : IAMMapTable α :=
  { t with mapTable := mapItemsM g t.primaryKeys t.mapTable }

/-- Building a table by a sequence of addItem calls starting from empty. -/
def buildTable {α : Type} (eqb : α → α → Bool) (keys : List (α → JSKey))
    (items : List α) : IAMMapTable α :=
  items.foldl (fun t x => t.addItem eqb x) (emptyTable keys)

/-! ## Domain records (iamDataCoreElements) -/

def POINT : Int := 1
def LINESTRING : Int := 2
def POLYGON : Int := 3

def LEVEL_STANDARD : Int := 1
def LEVEL_ATTRIBUTE : Int := 2
def LEVEL_FEATURE : Int := 3

/-- Color: RGB plus alpha.  new Color(c) on an existing color-shaped object
copies the four components unchanged. -/
structure Color where
  r : Int
  g : Int
  b : Int
  alpha : ℚ
deriving DecidableEq

/-- The merge overlay produced by Object.assign({...this}, temp) after deleting
the undefined keys of temp: the master's field wins whenever it is defined,
otherwise the caller's field survives. -/
def jsOverlay {β : Type} (caller master : Option β) : Option β :=
  match master with
  | some v => some v
  | none => caller

/-- JavaScript truthiness filter applied by the Border constructor to width
(props.width? props.width : undefined): the number 0 collapses to undefined. -/
def jsTruthyInt : Option Int → Option Int
  | some v => if v = 0 then none else some v
  | none => none

structure Border where
  color : Option Color
  width : Option Int
  lineDash1 : Option Int
  lineDash2 : Option Int
  lineDash3 : Option Int
  lineDash4 : Option Int
  lineDashOffset : Option Int
  lineCap : Option String
deriving DecidableEq

def emptyBorder : Border :=
  { color := none, width := none, lineDash1 := none, lineDash2 := none,
    lineDash3 := none, lineDash4 := none, lineDashOffset := none, lineCap := none }

/-- The Border constructor: Object.assign copies all supplied fields, the color
is rebuilt as an identical Color instance when present, and the width is
filtered through truthiness. -/
def mkBorder (props : Border) : Border :=
  { props with width := jsTruthyInt props.width }

/-- Border.merge(masterBorder): when the master is defined, overlay the
master's defined fields on top of this border and pass the result through the
Border constructor; when the master is undefined, return a plain copy of this
border (same field values). -/
def Border.merge (self : Border) (masterBorder : Option Border) : Border :=
  match masterBorder with
  | some mb =>
    mkBorder {
      color := jsOverlay self.color mb.color
      width := jsOverlay self.width mb.width
      lineDash1 := jsOverlay self.lineDash1 mb.lineDash1
      lineDash2 := jsOverlay self.lineDash2 mb.lineDash2
      lineDash3 := jsOverlay self.lineDash3 mb.lineDash3
      lineDash4 := jsOverlay self.lineDash4 mb.lineDash4
      lineDashOffset := jsOverlay self.lineDashOffset mb.lineDashOffset
      lineCap := jsOverlay self.lineCap mb.lineCap }
  | none => self

/-- Constructor-shaped argument of new TextSettings(props): the two border
slots may be absent (they default to an empty Border). -/
structure TextSettingsProps where
  textFillColor : Option Color := none
  textBorder : Option Border := none
  textFontStyle : Option String := none
  textFontWeight : Option String := none
  textFontSize : Option Int := none
  textFontSizeType : Option String := none
  textFontFamily : Option String := none
  textFont : Option String := none
  textOffsetX : Option Int := none
  textOffsetY : Option Int := none
  textRotation : Option Int := none
  textAlign : Option String := none
  textPlacement : Option String := none
  textBackgroundFillColor : Option Color := none
  textBackgroundBorder : Option Border := none
  textBackgroundPaddingTop : Option Int := none
  textBackgroundPaddingRight : Option Int := none
  textBackgroundPaddingBottom : Option Int := none
  textBackgroundPaddingLeft : Option Int := none
  textMaxAngle : Option Int := none
  textOverflow : Option Bool := none
  textRepeat : Option Int := none
deriving DecidableEq

/-- A constructed TextSettings instance: the constructor guarantees that
textBorder and textBackgroundBorder are Border objects.  Enum-like dropdown
values ({id, name} records in the source) are modelled by their id strings;
numeric fields are modelled as Int. -/
structure TextSettings where
  textFillColor : Option Color
  textBorder : Border
  textFontStyle : Option String
  textFontWeight : Option String
  textFontSize : Option Int
  textFontSizeType : Option String
  textFontFamily : Option String
  textFont : Option String
  textOffsetX : Option Int
  textOffsetY : Option Int
  textRotation : Option Int
  textAlign : Option String
  textPlacement : Option String
  textBackgroundFillColor : Option Color
  textBackgroundBorder : Border
  textBackgroundPaddingTop : Option Int
  textBackgroundPaddingRight : Option Int
  textBackgroundPaddingBottom : Option Int
  textBackgroundPaddingLeft : Option Int
  textMaxAngle : Option Int
  textOverflow : Option Bool
  textRepeat : Option Int
deriving DecidableEq

/-- The TextSettings constructor: Object.assign copies the supplied fields, the
fill colors are kept when present (rebuilt as identical Color instances), and
the two borders are built through the Border constructor from the supplied
border or from the empty object. -/
def mkTextSettings (p : TextSettingsProps) : TextSettings :=
  { textFillColor := p.textFillColor
    textBorder := mkBorder (p.textBorder.getD emptyBorder)
    textFontStyle := p.textFontStyle
    textFontWeight := p.textFontWeight
    textFontSize := p.textFontSize
    textFontSizeType := p.textFontSizeType
    textFontFamily := p.textFontFamily
    textFont := p.textFont
    textOffsetX := p.textOffsetX
    textOffsetY := p.textOffsetY
    textRotation := p.textRotation
    textAlign := p.textAlign
    textPlacement := p.textPlacement
    textBackgroundFillColor := p.textBackgroundFillColor
    textBackgroundBorder := mkBorder (p.textBackgroundBorder.getD emptyBorder)
    textBackgroundPaddingTop := p.textBackgroundPaddingTop
    textBackgroundPaddingRight := p.textBackgroundPaddingRight
    textBackgroundPaddingBottom := p.textBackgroundPaddingBottom
    textBackgroundPaddingLeft := p.textBackgroundPaddingLeft
    textMaxAngle := p.textMaxAngle
    textOverflow := p.textOverflow
    textRepeat := p.textRepeat }

/-- The spread {...instance} of a constructed TextSettings, as seen by the
merge overlay: every field is an own property; the two borders are always
defined objects. -/
def TextSettings.toProps (t : TextSettings) : TextSettingsProps :=
  { textFillColor := t.textFillColor
    textBorder := some t.textBorder
    textFontStyle := t.textFontStyle
    textFontWeight := t.textFontWeight
    textFontSize := t.textFontSize
    textFontSizeType := t.textFontSizeType
    textFontFamily := t.textFontFamily
    textFont := t.textFont
    textOffsetX := t.textOffsetX
    textOffsetY := t.textOffsetY
    textRotation := t.textRotation
    textAlign := t.textAlign
    textPlacement := t.textPlacement
    textBackgroundFillColor := t.textBackgroundFillColor
    textBackgroundBorder := some t.textBackgroundBorder
    textBackgroundPaddingTop := t.textBackgroundPaddingTop
    textBackgroundPaddingRight := t.textBackgroundPaddingRight
    textBackgroundPaddingBottom := t.textBackgroundPaddingBottom
    textBackgroundPaddingLeft := t.textBackgroundPaddingLeft
    textMaxAngle := t.textMaxAngle
    textOverflow := t.textOverflow
    textRepeat := t.textRepeat }

def overlayTextProps (caller master : TextSettingsProps) : TextSettingsProps :=
  { textFillColor := jsOverlay caller.textFillColor master.textFillColor
    textBorder := jsOverlay caller.textBorder master.textBorder
    textFontStyle := jsOverlay caller.textFontStyle master.textFontStyle
    textFontWeight := jsOverlay caller.textFontWeight master.textFontWeight
    textFontSize := jsOverlay caller.textFontSize master.textFontSize
    textFontSizeType := jsOverlay caller.textFontSizeType master.textFontSizeType
    textFontFamily := jsOverlay caller.textFontFamily master.textFontFamily
    textFont := jsOverlay caller.textFont master.textFont
    textOffsetX := jsOverlay caller.textOffsetX master.textOffsetX
    textOffsetY := jsOverlay caller.textOffsetY master.textOffsetY
    textRotation := jsOverlay caller.textRotation master.textRotation
    textAlign := jsOverlay caller.textAlign master.textAlign
    textPlacement := jsOverlay caller.textPlacement master.textPlacement
    textBackgroundFillColor := jsOverlay caller.textBackgroundFillColor master.textBackgroundFillColor
    textBackgroundBorder := jsOverlay caller.textBackgroundBorder master.textBackgroundBorder
    textBackgroundPaddingTop := jsOverlay caller.textBackgroundPaddingTop master.textBackgroundPaddingTop
    textBackgroundPaddingRight := jsOverlay caller.textBackgroundPaddingRight master.textBackgroundPaddingRight
    textBackgroundPaddingBottom := jsOverlay caller.textBackgroundPaddingBottom master.textBackgroundPaddingBottom
    textBackgroundPaddingLeft := jsOverlay caller.textBackgroundPaddingLeft master.textBackgroundPaddingLeft
    textMaxAngle := jsOverlay caller.textMaxAngle master.textMaxAngle
    textOverflow := jsOverlay caller.textOverflow master.textOverflow
    textRepeat := jsOverlay caller.textRepeat master.textRepeat }

/-- TextSettings.merge(master): overlay the master's defined fields, rebuild
through the constructor, then overwrite the two borders with their deep merges.
The source guard (this.textBackgroundBorder && ...) is vacuous because the
constructor always creates a Border object.  When the master is undefined the
method returns a plain copy with the same field values. -/
def TextSettings.merge (self : TextSettings) (master : Option TextSettings) : TextSettings :=
  match master with
  | some mt =>
    let ret := mkTextSettings (overlayTextProps self.toProps mt.toProps)
    { ret with
        textBorder := self.textBorder.merge (some mt.textBorder)
        textBackgroundBorder := self.textBackgroundBorder.merge (some mt.textBackgroundBorder) }
  | none => self

/-- TextSettings.getStandard.  The source writes the font style under the
misspelled key textFonStyle, so textFontStyle remains undefined. -/
def TextSettings.getStandard : TextSettings :=
  mkTextSettings
    { textFillColor := some ⟨0, 0, 0, 1⟩
      textFontWeight := some "normal"
      textFontSize := some 10
      textFontSizeType := some "pt"
      textFontFamily := some "Arial"
      textOffsetY := some 10
      textOverflow := some true }

/-- Re-running the TextSettings constructor on an existing instance (done by
the FeatureSettings constructor when a merge result is passed through a
subclass constructor): the borders are rebuilt through the Border constructor,
all other fields are copied. -/
def normTextSettings (t : TextSettings) : TextSettings :=
  { t with textBorder := mkBorder t.textBorder, textBackgroundBorder := mkBorder t.textBackgroundBorder }

/-- Fields added by PointSettings; the constructor guarantees pointBorder is a
Border object. -/
structure PointFields where
  pointShapeType : Option Int := none
  pointFill : Option Color := none
  pointBorder : Border := emptyBorder
  pointRadius : Option Int := none
  pointDisplacementX : Option Int := none
  pointDisplacementY : Option Int := none
  pointRotation : Option Int := none
  pointPoints : Option Int := none
  pointStarRadius : Option Int := none
deriving DecidableEq

structure LineStringFields where
  lineBorder1 : Border := emptyBorder
  lineBorder2 : Border := emptyBorder
deriving DecidableEq

structure PolygonFields where
  polygonFill : Option Color := none
  polygonBorder : Border := emptyBorder
deriving DecidableEq

/-- The three concrete subclasses of FeatureSettings, as a tagged variant of
their specific fields. -/
inductive SettingsVariant where
  | point : PointFields → SettingsVariant
  | lineString : LineStringFields → SettingsVariant
  | polygon : PolygonFields → SettingsVariant
deriving DecidableEq

def SettingsVariant.ftype : SettingsVariant → Int
  | .point _ => POINT
  | .lineString _ => LINESTRING
  | .polygon _ => POLYGON

/-- A FeatureSettings instance (always one of the three subclasses). -/
structure FeatureSettings where
  featureType : Int
  levelType : Int
  levelName : Option String
  levelValue : Option String
  showFeature : Option Bool
  showText : Option Bool
  textSettings : Option TextSettings
  variant : SettingsVariant
deriving DecidableEq

/-- FeatureSettings.equals: identity is (featureType, levelType, levelName,
levelValue); the styling fields are not compared. -/
def featureSettingsEquals (a b : FeatureSettings) : Bool :=
  a.featureType == b.featureType && a.levelType == b.levelType &&
  a.levelName == b.levelName && a.levelValue == b.levelValue

def FeatureSettings.pointFieldsOf (s : FeatureSettings) : Option PointFields :=
  match s.variant with
  | .point pf => some pf
  | _ => none

def FeatureSettings.lineFieldsOf (s : FeatureSettings) : Option LineStringFields :=
  match s.variant with
  | .lineString lf => some lf
  | _ => none

def FeatureSettings.polyFieldsOf (s : FeatureSettings) : Option PolygonFields :=
  match s.variant with
  | .polygon pg => some pg
  | _ => none

/-- The base-class FeatureSettings.merge step: overlay the master's defined
fields over this object's (featureType and levelType are always defined on
instances, so the master's values win outright), then replace textSettings by
the deep merge this.textSettings.merge(master.textSettings).  When this object
has no textSettings the source would throw; that situation never arises in the
resolution flows, where the caller always descends from a standard settings
object. -/
def FeatureSettings.mergeBase (a b : FeatureSettings) : FeatureSettings :=
  { featureType := b.featureType
    levelType := b.levelType
    levelName := jsOverlay a.levelName b.levelName
    levelValue := jsOverlay a.levelValue b.levelValue
    showFeature := jsOverlay a.showFeature b.showFeature
    showText := jsOverlay a.showText b.showText
    textSettings := a.textSettings.map (fun t => t.merge b.textSettings)
    variant := a.variant }

/-- The subclass merge methods: pass the base merge through the subclass
constructor (which forces featureType and rebuilds textSettings through the
TextSettings constructor) and deep-merge the subclass border fields.  A master
of a different subclass supplies undefined for the subclass-specific fields
(its foreign fields, which the untyped source would carry along as inert extra
properties, are dropped by the variant model; settings of equal featureType
always share the subclass, so this never occurs in the store's flows). -/
def FeatureSettings.merge (a b : FeatureSettings) : FeatureSettings :=
  let base := a.mergeBase b
  match a.variant with
  | .point pf =>
    { base with
        featureType := POINT
        textSettings := base.textSettings.map normTextSettings
        variant := .point {
          pointShapeType := jsOverlay pf.pointShapeType (b.pointFieldsOf.bind (fun x => x.pointShapeType))
          pointFill := jsOverlay pf.pointFill (b.pointFieldsOf.bind (fun x => x.pointFill))
          pointBorder := pf.pointBorder.merge (b.pointFieldsOf.map (fun x => x.pointBorder))
          pointRadius := jsOverlay pf.pointRadius (b.pointFieldsOf.bind (fun x => x.pointRadius))
          pointDisplacementX := jsOverlay pf.pointDisplacementX (b.pointFieldsOf.bind (fun x => x.pointDisplacementX))
          pointDisplacementY := jsOverlay pf.pointDisplacementY (b.pointFieldsOf.bind (fun x => x.pointDisplacementY))
          pointRotation := jsOverlay pf.pointRotation (b.pointFieldsOf.bind (fun x => x.pointRotation))
          pointPoints := jsOverlay pf.pointPoints (b.pointFieldsOf.bind (fun x => x.pointPoints))
          pointStarRadius := jsOverlay pf.pointStarRadius (b.pointFieldsOf.bind (fun x => x.pointStarRadius)) } }
  | .lineString lf =>
    { base with
        featureType := LINESTRING
        textSettings := base.textSettings.map normTextSettings
        variant := .lineString {
          lineBorder1 := lf.lineBorder1.merge (b.lineFieldsOf.map (fun x => x.lineBorder1))
          lineBorder2 := lf.lineBorder2.merge (b.lineFieldsOf.map (fun x => x.lineBorder2)) } }
  | .polygon pg =>
    { base with
        featureType := POLYGON
        textSettings := base.textSettings.map normTextSettings
        variant := .polygon {
          polygonFill := jsOverlay pg.polygonFill (b.polyFieldsOf.bind (fun x => x.polygonFill))
          polygonBorder := pg.polygonBorder.merge (b.polyFieldsOf.map (fun x => x.polygonBorder)) } }

/-- PointSettings.getStandard. -/
def pointStandardSettings : FeatureSettings :=
  { featureType := POINT
    levelType := LEVEL_STANDARD
    levelName := some "Standard"
    levelValue := some ""
    showFeature := some true
    showText := some false
    textSettings := some TextSettings.getStandard
    variant := .point {
      pointShapeType := some 1
      pointFill := some ⟨200, 200, 200, 1⟩
      pointBorder := mkBorder { emptyBorder with color := some ⟨0, 0, 0, 1⟩, width := some 1 }
      pointRadius := some 5 } }

/-- LineStringSettings.getStandard. -/
def lineStringStandardSettings : FeatureSettings :=
  { featureType := LINESTRING
    levelType := LEVEL_STANDARD
    levelName := some "Standard"
    levelValue := some ""
    showFeature := some true
    showText := some false
    textSettings := some TextSettings.getStandard
    variant := .lineString {
      lineBorder1 := mkBorder { emptyBorder with color := some ⟨0, 0, 0, 1⟩, width := some 2 } } }

/-- PolygonSettings.getStandard. -/
def polygonStandardSettings : FeatureSettings :=
  { featureType := POLYGON
    levelType := LEVEL_STANDARD
    levelName := some "Standard"
    levelValue := some ""
    showFeature := some true
    showText := some true
    textSettings := some TextSettings.getStandard
    variant := .polygon {
      polygonFill := some ⟨200, 200, 200, 1⟩
      polygonBorder := mkBorder { emptyBorder with color := some ⟨0, 0, 0, 1⟩, width := some 1 } } }

/-- FeatureProperty: property values are modelled as strings (the CSV sources
deliver strings; no claim computes on property values). -/
structure FeatureProperty where
  featureType : Int
  featureId : String
  propertyName : String
  propertyValue : String
deriving DecidableEq

/-- FeatureProperty.equals: the property value is not compared. -/
def featurePropertyEquals (a b : FeatureProperty) : Bool :=
  a.featureType == b.featureType && a.featureId == b.featureId &&
  a.propertyName == b.propertyName

/-- FeatureAttribute (extends FeatureProperty, flattened here).  The six date
fields originate as non-empty numeric strings (the CSV loader drops empty or
non-numeric year cells), so their JavaScript truthiness coincides with
presence; they are modelled as parsed integers. -/
structure FeatureAttribute where
  featureType : Int
  featureId : String
  propertyName : String
  propertyValue : String
  fromYear : Option Int
  fromMonth : Option Int
  fromDay : Option Int
  toYear : Option Int
  toMonth : Option Int
  toDay : Option Int
deriving DecidableEq

/-- FeatureAttribute.equals: super.equals plus the value and all six date
fields. -/
def featureAttributeEquals (a b : FeatureAttribute) : Bool :=
  a.featureType == b.featureType && a.featureId == b.featureId &&
  a.propertyName == b.propertyName &&
  a.propertyValue == b.propertyValue &&
  a.fromYear == b.fromYear && a.fromMonth == b.fromMonth && a.fromDay == b.fromDay &&
  a.toYear == b.toYear && a.toMonth == b.toMonth && a.toDay == b.toDay

/-! ## Features and coordinates -/

/-- Coordinate numbers: Int extended with ⊤ standing for the Infinity produced
by min-computations over empty arrays. -/
abbrev Num := WithTop Int

/-- Geometry coordinates: a point is one pair, a line an ordered list of pairs,
a polygon a list of rings. -/
inductive Coords where
  | pt : Num → Num → Coords
  | ln : List (Num × Num) → Coords
  | pg : List (List (Num × Num)) → Coords
deriving DecidableEq

/-- Values stored in the properties object of an ExtendedFeature or of an
exported GeoJSON feature: scalar strings, or the side-channel payloads the
export writes (settings list, map-settings object modelled opaquely as a
string, attribute list). -/
inductive PropVal where
  | str : String → PropVal
  | settingsList : List FeatureSettings → PropVal
  | mapObj : String → PropVal
  | attributesList : List FeatureAttribute → PropVal
deriving DecidableEq

/-- A JavaScript plain object with string keys: insertion-ordered, assignment
replaces in place. -/
def objGet {β : Type} (o : List (String × β)) (k : String) : Option β :=
  (o.find? (fun e => e.1 == k)).map Prod.snd

def objSet {β : Type} (o : List (String × β)) (k : String) (v : β) : List (String × β) :=
  if o.any (fun e => e.1 == k) then
    o.map (fun e => if e.1 == k then (k, v) else e)
  else
    o ++ [(k, v)]

/-- ExtendedFeature: a feature plus its denormalized properties object and
attribute list. -/
structure ExtendedFeature where
  featureType : Int
  id : String
  coordinates : Coords
  properties : List (String × PropVal)
  attributes : List FeatureAttribute
deriving DecidableEq

/-- The ExtendedFeature constructor: empty properties and attributes. -/
def mkExtendedFeature (ftype : Int) (fid : String) (coords : Coords) : ExtendedFeature :=
  { featureType := ftype, id := fid, coordinates := coords, properties := [], attributes := [] }

/-- Feature.equals: same feature type and id. -/
def featureEquals (a b : ExtendedFeature) : Bool :=
  a.featureType == b.featureType && a.id == b.id

def ExtendedFeature.addProperty (f : ExtendedFeature) (name : String) (value : PropVal) :
    ExtendedFeature :=
  { f with properties := objSet f.properties name value }

/-- ExtendedFeature.addAttribute: the attribute is appended only when it names
exactly this feature's (type, id). -/
def ExtendedFeature.addAttribute (f : ExtendedFeature) (att : FeatureAttribute) :
    ExtendedFeature :=
  if att.featureType == f.featureType && att.featureId == f.id then
    { f with attributes := f.attributes ++ [att] }
  else f

def ExtendedFeature.clearProperties (f : ExtendedFeature) : ExtendedFeature :=
  { f with properties := [] }

def ExtendedFeature.clearAttributes (f : ExtendedFeature) : ExtendedFeature :=
  { f with attributes := [] }

def ExtendedFeature.getAttributes (f : ExtendedFeature) (filterFunc : FeatureAttribute → Bool) :
    List FeatureAttribute :=
  f.attributes.filter filterFunc

/-- getMinOfArray: a simple fold starting from Infinity. -/
def getMinOfArray (l : List Num) : Num :=
  l.foldl (fun m x => if x < m then x else m) ⊤

/-- Feature.getMinLongitude, dispatching on the feature type. Feature-type /
coordinate-shape mismatches cannot be produced by the adapters and fall back
to ⊤.  (Math.min over the per-ring minima computes the same minimum as the
fold.) -/
def ExtendedFeature.getMinLongitude (f : ExtendedFeature) : Num :=
  if f.featureType == LINESTRING then
    match f.coordinates with
    | .ln ps => getMinOfArray (ps.map Prod.fst)
    | _ => ⊤
  else if f.featureType == POLYGON then
    match f.coordinates with
    | .pg rings => getMinOfArray (rings.map (fun r => getMinOfArray (r.map Prod.fst)))
    | _ => ⊤
  else
    match f.coordinates with
    | .pt x _ => x
    | _ => ⊤

def ExtendedFeature.getMinLatitude (f : ExtendedFeature) : Num :=
  if f.featureType == LINESTRING then
    match f.coordinates with
    | .ln ps => getMinOfArray (ps.map Prod.snd)
    | _ => ⊤
  else if f.featureType == POLYGON then
    match f.coordinates with
    | .pg rings => getMinOfArray (rings.map (fun r => getMinOfArray (r.map Prod.snd)))
    | _ => ⊤
  else
    match f.coordinates with
    | .pt _ y => y
    | _ => ⊤

/-- FeatureType.geoJSONName lookup. -/
def geoJSONName (t : Int) : String :=
  if t == 1 then "Point" else if t == 2 then "LineString" else if t == 3 then "Polygon" else ""

/-- One feature of the exported GeoJSON document (the object built by
Feature.toGeoJSON / ExtendedFeature.toGeoJSON before JSON.stringify). -/
structure GeoFeature where
  id : String
  geometryType : String
  coordinates : Coords
  properties : List (String × PropVal)
deriving DecidableEq

/-- ExtendedFeature.toGeoJSON: the base object carries the id (also under the
properties), then properties and/or the attribute list are copied in when
requested. -/
def ExtendedFeature.toGeoJSON (f : ExtendedFeature) (addProperties addAttributes : Bool) :
    GeoFeature :=
  let base : GeoFeature :=
    { id := f.id, geometryType := geoJSONName f.featureType, coordinates := f.coordinates,
      properties := [("id", .str f.id)] }
  let withProps :=
    if addProperties then
      { base with properties := f.properties.foldl (fun acc kv => objSet acc kv.1 kv.2) base.properties }
    else base
  if addAttributes then
    { withProps with properties := objSet withProps.properties "_iamAttributes" (.attributesList f.attributes) }
  else withProps

/-! ## ProcessResult -/

def INFO : Int := 1
def WARN : Int := 2
def ERROR : Int := 3

structure ProcessResult where
  status : Int
  text : String
  details : List String
deriving DecidableEq

/-- ProcessResult.addDetail: the status is raised only if the new status is
worse; on the transition to WARN the fixed suffix is appended to the summary
text once; the detail is always appended. -/
def ProcessResult.addDetail (pr : ProcessResult) (status : Int) (detail : String) :
    ProcessResult :=
  let pr2 :=
    if status > pr.status then
      { pr with status := status, text := if status == WARN then pr.text ++ " with warnings" else pr.text }
    else pr
  { pr2 with details := pr2.details ++ [detail] }

/-! ## IAMStorage -/

def OVERWRITE : Int := 1
def DROPTABLE : Int := 2

def featuresKeys : List (ExtendedFeature → JSKey) :=
  [fun f => .num f.featureType, fun f => .str f.id]

def featureAttributesKeys : List (FeatureAttribute → JSKey) :=
  [fun a => .num a.featureType, fun a => .str a.featureId,
   fun a => .str a.propertyName, fun a => .str a.propertyValue]

def featurePropertiesKeys : List (FeatureProperty → JSKey) :=
  [fun p => .num p.featureType, fun p => .str p.featureId, fun p => .str p.propertyName]

def featureSettingsKeys : List (FeatureSettings → JSKey) :=
  [fun s => .num s.featureType, fun s => .num s.levelType,
   fun s => optStrKey s.levelName, fun s => optStrKey s.levelValue]

structure IAMStorage where
  features : IAMMapTable ExtendedFeature
  featureAttributes : IAMMapTable FeatureAttribute
  featureProperties : IAMMapTable FeatureProperty
  featureSettings : IAMMapTable FeatureSettings

/-- IAMStorage._initStandardSettings: seed the three standard settings. -/
def initStandardSettings (t : IAMMapTable FeatureSettings) : IAMMapTable FeatureSettings :=
  ((t.addItem featureSettingsEquals pointStandardSettings).addItem
      featureSettingsEquals lineStringStandardSettings).addItem
    featureSettingsEquals polygonStandardSettings

/-- IAMStorage._init: fresh tables plus the standard settings. -/
def initStorage : IAMStorage :=
  { features := emptyTable featuresKeys
    featureAttributes := emptyTable featureAttributesKeys
    featureProperties := emptyTable featurePropertiesKeys
    featureSettings := initStandardSettings (emptyTable featureSettingsKeys) }

def IAMStorage.addSetting (s : IAMStorage) (st : FeatureSettings) : IAMStorage :=
  { s with featureSettings := s.featureSettings.addItem featureSettingsEquals st }

def IAMStorage.getFeature (s : IAMStorage) (ftype : Int) (fid : String) :
    Option ExtendedFeature :=
  s.features.getItem [.num ftype, .str fid]

def IAMStorage.getAllFeatures (s : IAMStorage) : List ExtendedFeature :=
  s.features.getAllItems [none, none]

def IAMStorage.getAllSettings (s : IAMStorage) : List FeatureSettings :=
  s.featureSettings.getAllItems [none, none, none, none]

/-- IAMStorage.getStandardSettings: first match of the filtered scan, or
undefined. -/
def IAMStorage.getStandardSettings (s : IAMStorage) (ftype : Int) : Option FeatureSettings :=
  (s.featureSettings.getAllItems
    [some (fun k => k == .num ftype), some (fun k => k == .num LEVEL_STANDARD), none, none]).head?

def jsTruthyStr (s : String) : Bool := s != ""

/-- IAMStorage.getSettings: the levelName/levelValue filters accept every key
when the supplied argument is falsy (undefined or the empty string). -/
def IAMStorage.getSettings (s : IAMStorage) (ftype lt : Int)
    (levelName levelValue : Option String) : List FeatureSettings :=
  s.featureSettings.getAllItems
    [some (fun k => k == .num ftype),
     some (fun k => k == .num lt),
     some (fun k => match levelName with
       | some n => if jsTruthyStr n then k == .str n else true
       | none => true),
     some (fun k => match levelValue with
       | some v => if jsTruthyStr v then k == .str v else true
       | none => true)]

/-- The attribute filter of getSettingsOfFeature: drop an attribute only when
its fromYear lies after yearTo or its toYear lies before yearFrom.  The year
fields originate as non-empty numeric strings, whose JavaScript truthiness is
exactly presence. -/
def overlapsWindow (y1 y2 : Int) (a : FeatureAttribute) : Bool :=
  !((match a.fromYear with | some fy => decide (fy > y2) | none => false) ||
    (match a.toYear with | some ty => decide (ty < y1) | none => false))

/-- A stable insertion sort modelling Array.prototype.sort with a numeric
comparator: pairs the comparator maps to NaN (an absent year on either side)
compare as equal and keep their original relative order. -/
def insertSorted {α : Type} (le : α → α → Bool) (x : α) : List α → List α
  | [] => [x]
  | y :: ys => if le x y then x :: y :: ys else y :: insertSorted le x ys

def sortJS {α : Type} (le : α → α → Bool) (l : List α) : List α :=
  l.foldr (insertSorted le) []

def fromYearLe (x y : FeatureAttribute) : Bool :=
  match x.fromYear, y.fromYear with
  | some u, some v => u ≤ v
  | _, _ => true

def sortByFromYear (l : List FeatureAttribute) : List FeatureAttribute :=
  sortJS fromYearLe l

/-- The hasChanged test of getSettingsOfFeature: the attribute's fromYear lies
inside [yearFrom, yearTo] (an absent fromYear fails both comparisons). -/
def fromYearInWindow (y1 y2 : Int) (a : FeatureAttribute) : Bool :=
  match a.fromYear with
  | some fy => decide (y1 ≤ fy) && decide (fy ≤ y2)
  | none => false

/-- The body of the attribute loop of getSettingsOfFeature: merge the first
matching Attribute-level setting, and when the attribute starts inside the
requested window also merge the matching hasChanged setting. -/
def settingsOfFeatureStep (s : IAMStorage) (ftype y1 y2 : Int)
    (ret : FeatureSettings) (att : FeatureAttribute) : FeatureSettings :=
  let attributeSettings :=
    s.getSettings ftype LEVEL_ATTRIBUTE (some att.propertyName) (some att.propertyValue)
  match attributeSettings.head? with
  | none => ret
  | some st =>
    let ret2 := ret.merge st
    if fromYearInWindow y1 y2 att then
      match (s.getSettings ftype LEVEL_ATTRIBUTE (some att.propertyName)
          (some "_iam_hasChanged")).head? with
      | some hc => ret2.merge hc
      | none => ret2
    else ret2

/-- IAMStorage.getSettingsOfFeature.  When no standard settings exist the
source proceeds with undefined and throws at the first merge; reachable stores
always hold the standard settings, and the embedding returns none there. -/
def IAMStorage.getSettingsOfFeature (s : IAMStorage) (ftype : Int) (fid : String)
    (y1 y2 : Int) : Option FeatureSettings :=
  match s.getStandardSettings ftype with
  | none => none
  | some ret0 =>
    let ret1 :=
      match s.getFeature ftype fid with
      | none => ret0
      | some f =>
        let atts := sortByFromYear (f.getAttributes (overlapsWindow y1 y2))
        atts.foldl (settingsOfFeatureStep s ftype y1 y2) ret0
    match (s.getSettings ftype LEVEL_FEATURE (some fid) none).head? with
    | some fs => some (ret1.merge fs)
    | none => some ret1

/-! ## Bulk loaders -/

/-- IAMStorage.loadFeatures. -/
def IAMStorage.loadFeatures (s : IAMStorage) (ds : List ExtendedFeature) (insertType : Int)
    (pr : ProcessResult) : IAMStorage × ProcessResult :=
  let s0 := if insertType == DROPTABLE then initStorage else s
  let s1 := ds.foldl (fun st f => { st with features := st.features.addItem featureEquals f }) s0
  (s1, pr.addDetail INFO (toString ds.length ++ " features successfully loaded into database."))

def warnNoFeatureProp (r : FeatureProperty) : String :=
  "WARNING: Property not added as no feature found for featureId/featureType " ++
    r.featureId ++ "/" ++ toString r.featureType

def warnNoFeatureAtt (r : FeatureAttribute) : String :=
  "WARNING: Attribute not added as no feature found for featureId/featureType " ++
    r.featureId ++ "/" ++ toString r.featureType

/-- Inserting one property: into the properties table, and into the properties
object of the feature instance stored in the features table (the source
mutates the object returned by getFeature, which is the head of its terminal
slot). -/
def IAMStorage.insertProperty (s : IAMStorage) (r : FeatureProperty) : IAMStorage :=
  { s with
      featureProperties := s.featureProperties.addItem featurePropertyEquals r
      features := { s.features with
        mapTable := updateHeadM [.num r.featureType, .str r.featureId]
          (fun f => f.addProperty r.propertyName (.str r.propertyValue)) s.features.mapTable } }

def IAMStorage.insertAttribute (s : IAMStorage) (r : FeatureAttribute) : IAMStorage :=
  { s with
      featureAttributes := s.featureAttributes.addItem featureAttributeEquals r
      features := { s.features with
        mapTable := updateHeadM [.num r.featureType, .str r.featureId]
          (fun f => f.addAttribute r) s.features.mapTable } }

/-- The record loop of loadFeaturesProperties: a record whose feature is absent
adds one WARN detail and is skipped; otherwise it is inserted and counted. -/
def loadPropsLoop (s : IAMStorage) (pr : ProcessResult) (counter : Nat) :
    List FeatureProperty → IAMStorage × ProcessResult × Nat
  | [] => (s, pr, counter)
  | r :: rest =>
    match s.getFeature r.featureType r.featureId with
    | none => loadPropsLoop s (pr.addDetail WARN (warnNoFeatureProp r)) counter rest
    | some _ => loadPropsLoop (s.insertProperty r) pr (counter + 1) rest

/-- The DROPTABLE preamble of loadFeaturesProperties: fresh properties table
and clearProperties on every stored feature. -/
def propsDropInit (s : IAMStorage) (insertType : Int) : IAMStorage :=
  if insertType == DROPTABLE then
    { s with featureProperties := emptyTable featurePropertiesKeys,
             features := s.features.mapItems ExtendedFeature.clearProperties }
  else s

def IAMStorage.loadFeaturesProperties (s : IAMStorage) (ds : List FeatureProperty)
    (insertType : Int) (pr : ProcessResult) : IAMStorage × ProcessResult :=
  let s0 := propsDropInit s insertType
  let res := loadPropsLoop s0 pr 0 ds
  (res.1, res.2.1.addDetail INFO
    (toString res.2.2 ++ " feature properties successfully loaded into database."))

def loadAttsLoop (s : IAMStorage) (pr : ProcessResult) (counter : Nat) :
    List FeatureAttribute → IAMStorage × ProcessResult × Nat
  | [] => (s, pr, counter)
  | r :: rest =>
    match s.getFeature r.featureType r.featureId with
    | none => loadAttsLoop s (pr.addDetail WARN (warnNoFeatureAtt r)) counter rest
    | some _ => loadAttsLoop (s.insertAttribute r) pr (counter + 1) rest

def attsDropInit (s : IAMStorage) (insertType : Int) : IAMStorage :=
  if insertType == DROPTABLE then
    { s with featureAttributes := emptyTable featureAttributesKeys,
             features := s.features.mapItems ExtendedFeature.clearAttributes }
  else s

def IAMStorage.loadFeaturesAttributes (s : IAMStorage) (ds : List FeatureAttribute)
    (insertType : Int) (pr : ProcessResult) : IAMStorage × ProcessResult :=
  let s0 := attsDropInit s insertType
  let res := loadAttsLoop s0 pr 0 ds
  (res.1, res.2.1.addDetail INFO
    (toString res.2.2 ++ " feature attributes successfully loaded into database."))

/-- IAMStorage.loadSettings. -/
def IAMStorage.loadSettings (s : IAMStorage) (ds : List FeatureSettings) (insertType : Int)
    (pr : ProcessResult) : IAMStorage × ProcessResult :=
  let s0 :=
    if insertType == DROPTABLE then
      { s with featureSettings := initStandardSettings (emptyTable featureSettingsKeys) }
    else s
  let s1 := ds.foldl (fun st x => st.addSetting x) s0
  (s1, pr.addDetail INFO (toString ds.length ++ " settings successfully loaded into database."))

/-! ## Year range and bounding box queries -/

def IAMStorage.getMinLongitude (s : IAMStorage) : Num :=
  getMinOfArray (s.getAllFeatures.map ExtendedFeature.getMinLongitude)

def IAMStorage.getMinLatitude (s : IAMStorage) : Num :=
  getMinOfArray (s.getAllFeatures.map ExtendedFeature.getMinLatitude)

def minYearLe (a b : Option Int) : Bool :=
  match a, b with
  | some x, some y => x ≤ y
  | _, _ => true

def maxYearLe (a b : Option Int) : Bool :=
  match a, b with
  | some x, some y => y ≤ x
  | _, _ => true

/-- IAMStorage.getAttributesMinimumYear.  On an empty attribute table the
source evaluates the current year but discards it (the return statement is
missing), then indexes the empty sorted list, producing undefined; the
embedding reflects the fall-through. -/
def IAMStorage.getAttributesMinimumYear (s : IAMStorage) : Option Int :=
  let years := (s.featureAttributes.getAllItems [none, none, none, none]).map
    (fun a => a.fromYear)
  ((sortJS minYearLe years).head?).join

def IAMStorage.getAttributesMaximumYear (s : IAMStorage) : Option Int :=
  let years := (s.featureAttributes.getAllItems [none, none, none, none]).map
    (fun a => a.fromYear)
  ((sortJS maxYearLe years).head?).join

/-! ## Serialization -/

/-- The object built by getSettingsAsObject: the settings list starts empty and
is populated only inside the truthiness test on the supplied map settings,
exactly as in the source. -/
structure SettingsObject where
  featureSettingsList : List FeatureSettings
  mapSettings : Option String
deriving DecidableEq

def IAMStorage.getSettingsAsObject (s : IAMStorage) (mapSettings : Option String) :
    SettingsObject :=
  match mapSettings with
  | some m => { featureSettingsList := s.getAllSettings, mapSettings := some m }
  | none => { featureSettingsList := [], mapSettings := none }

/-- The document object built by IAMStorage.toGeoJSON (JSON.stringify is
omitted; the claims concern the document's structure). -/
structure GeoJSONDoc where
  features : List GeoFeature
deriving DecidableEq

def IAMStorage.toGeoJSON (s : IAMStorage) (addProperties addAttributes addSettings : Bool)
    (mapSettings : Option String) : GeoJSONDoc :=
  let base := s.getAllFeatures.map (fun f => f.toGeoJSON addProperties addAttributes)
  if addSettings then
    let helper0 := mkExtendedFeature POINT "_iam_Settings" (.pt s.getMinLongitude s.getMinLatitude)
    let helper1 := helper0.addProperty "_iam_FeatureSettings"
      (.settingsList (s.getSettingsAsObject mapSettings).featureSettingsList)
    let helper2 :=
      match mapSettings with
      | some m => helper1.addProperty "_iam_MapSettings" (.mapObj m)
      | none => helper1
    { features := base ++ [helper2.toGeoJSON true false] }
  else
    { features := base }

/-! ## CSV parsing (the CSV data source adapters) -/

structure CsvState where
  arr : List (List String)
  row : Nat
  col : Nat
  quote : Bool

/-- The two cell-creation statements at the top of the parse loop
(arr[row] = arr[row] || []; arr[row][col] = arr[row][col] || ''); the row and
column indices only ever advance past the end by one, so padding creates at
most one new row/cell. -/
def ensureCell (st : CsvState) : CsvState :=
  let arr1 :=
    if st.arr.length ≤ st.row then st.arr ++ List.replicate (st.row + 1 - st.arr.length) []
    else st.arr
  let rowL := (arr1[st.row]?).getD []
  let rowL2 :=
    if rowL.length ≤ st.col then rowL ++ List.replicate (st.col + 1 - rowL.length) ""
    else rowL
  { st with arr := arr1.set st.row rowL2 }

def appendCell (st : CsvState) (c : Char) : CsvState :=
  let rowL := (st.arr[st.row]?).getD []
  let cell := (rowL[st.col]?).getD ""
  { st with arr := st.arr.set st.row (rowL.set st.col (cell.push c)) }

/-- The character loop of _parseCsv: double quotes escape inside quoted fields,
a quote toggles the quoted state, the delimiter advances the column, CRLF / LF
/ CR advance the row, anything else is appended to the current cell.  The two
branches that consume the following character recurse through a match on the
remaining characters; their empty-list arms are unreachable (both conditions
require a following character). -/
def csvLoop (delim : Char) : List Char → CsvState → CsvState
  | [], st => st
  | cc :: rest, st0 =>
    let st := ensureCell st0
    let nc : Option Char := rest.head?
    if cc == '"' && st.quote && nc == some '"' then
      match rest with
      | _ :: rest2 => csvLoop delim rest2 (appendCell st '"')
      | [] => appendCell st '"'
    else if cc == '"' then
      csvLoop delim rest { st with quote := !st.quote }
    else if cc == delim && !st.quote then
      csvLoop delim rest { st with col := st.col + 1 }
    else if cc == '\r' && nc == some '\n' && !st.quote then
      match rest with
      | _ :: rest2 => csvLoop delim rest2 { st with row := st.row + 1, col := 0 }
      | [] => { st with row := st.row + 1, col := 0 }
    else if cc == '\n' && !st.quote then
      csvLoop delim rest { st with row := st.row + 1, col := 0 }
    else if cc == '\r' && !st.quote then
      csvLoop delim rest { st with row := st.row + 1, col := 0 }
    else
      csvLoop delim rest (appendCell st cc)

/-- Delimiter auto-detection: comma unless the raw data contains a
semicolon. -/
def pickDelimiter (raw : String) : Char :=
  if raw.toList.contains ';' then ';' else ','

def parseCsvRows (raw : String) : List (List String) :=
  (csvLoop (pickDelimiter raw) raw.toList { arr := [], row := 0, col := 0, quote := false }).arr

/-- _checkHeader: a header with fewer columns than the template throws; a
missing header row (empty input) makes the length access throw a TypeError;
mismatched column names only add WARN details. -/
def checkHeader (header : Option (List String)) (headerTemplate : List String)
    (pr : ProcessResult) : Except String ProcessResult :=
  match header with
  | none => .error "TypeError: header is undefined"
  | some h =>
    if h.length < headerTemplate.length then
      .error ("File must have at least " ++ toString headerTemplate.length ++
        " columns in csv format")
    else
      .ok (headerTemplate.enum.foldl (fun p ie =>
        if ((h[ie.1]?).getD "") != ie.2 then
          p.addDetail WARN ("WARNING: colum " ++ toString ie.1 ++ " should be named " ++
            ie.2 ++ ". Instead found " ++ (h[ie.1]?).getD "")
        else p) pr)

/-- _parseCsv in the headers+template mode used by the CSV adapters: on any
exception the summary text is replaced, the exception message is recorded as a
WARN detail, and null (none) is returned; otherwise the data rows are turned
into objects keyed by the header names, skipping empty cells and cells the
content check rejects. -/
def parseCsvWithHeaders (raw : String) (headerTemplate : List String)
    (checkContent : String → String → ProcessResult → Bool × ProcessResult)
    (pr : ProcessResult) : Option (List (List (String × String))) × ProcessResult :=
  let arr := parseCsvRows raw
  match checkHeader arr.head? headerTemplate pr with
  | .error e =>
    let pr2 : ProcessResult := { pr with text := "File has no valid format. No data was loaded." }
    (none, pr2.addDetail WARN e)
  | .ok pr1 =>
    let header := (arr.head?).getD []
    let rest := arr.tail
    let step := fun (acc : List (List (String × String)) × ProcessResult) (r : List String) =>
      let rowRes := r.enum.foldl (fun (ro : List (String × String) × ProcessResult) iv =>
        let key := (header[iv.1]?).getD ""
        if iv.2 != "" then
          let chk := checkContent key iv.2 ro.2
          if chk.1 then (objSet ro.1 key iv.2, chk.2) else (ro.1, chk.2)
        else ro) ([], acc.2)
      (acc.1 ++ [rowRes.1], rowRes.2)
    let res := rest.foldl step ([], pr1)
    (some res.1, res.2)

def attributesHeaderTemplate : List String :=
  ["feature", "featureId", "propertyName", "propertyValue", "fromYear", "fromMonth",
   "fromDay", "toYear", "toMonth", "toDay"]

/-- The checkContent hook of FeatureAttributesCSVDataSource.  parseInt is
modelled as a full-string integer parse and the quote characters the source
puts around column names in the warning texts are omitted; no claim depends on
either. -/
def attributesCheckContent (key value : String) (pr : ProcessResult) : Bool × ProcessResult :=
  if key == "feature" then
    if value != "Point" && value != "LineString" && value != "Polygon" then
      (false, pr.addDetail WARN
        ("WARNING: value of column feature should be either Point, LineString or Polygon. Instead found " ++
          value ++ ". Row will be ignored!"))
    else (true, pr)
  else if key == "fromYear" then
    match value.toInt? with
    | none => (false, pr.addDetail WARN
        ("WARNING: value of column fromYear has to be a valid integer number. Instead found " ++
          value ++ ". Value will be ignored!"))
    | some _ => (true, pr)
  else if key == "toYear" then
    match value.toInt? with
    | none => (false, pr.addDetail WARN
        ("WARNING: value of column toYear has to be a valid integer number. Instead found " ++
          value ++ ". Value will be ignored!"))
    | some _ => (true, pr)
  else (true, pr)

/-- The record mapping of _loadFeatureAttributes: the feature column decides
the feature type (anything other than Point/LineString falls through to
Polygon — the content check already rejected other values), and the parsed
columns populate the FeatureAttribute.  Columns absent from a row are
undefined in the source; the string fields default to the empty string here
(no theorem depends on them). -/
def rowToFeatureAttribute (row : List (String × String)) : FeatureAttribute :=
  { featureType :=
      if objGet row "feature" == some "Point" then POINT
      else if objGet row "feature" == some "LineString" then LINESTRING
      else POLYGON
    featureId := (objGet row "featureId").getD ""
    propertyName := (objGet row "propertyName").getD ""
    propertyValue := (objGet row "propertyValue").getD ""
    fromYear := (objGet row "fromYear").bind String.toInt?
    fromMonth := (objGet row "fromMonth").bind String.toInt?
    fromDay := (objGet row "fromDay").bind String.toInt?
    toYear := (objGet row "toYear").bind String.toInt?
    toMonth := (objGet row "toMonth").bind String.toInt?
    toDay := (objGet row "toDay").bind String.toInt? }

/-- The FeatureAttributesCSVDataSource constructor.  When _parseCsv catches a
header failure it records the failure and returns null; the constructor then
calls forEach on null, so the TypeError escapes the constructor — modelled as
Except.error carrying the process result left behind at that point. -/
def mkFeatureAttributesCSVDataSource (raw : String) (pr : ProcessResult) :
    Except ProcessResult (List FeatureAttribute × ProcessResult) :=
  match parseCsvWithHeaders raw attributesHeaderTemplate attributesCheckContent pr with
  | (none, pr2) => .error pr2
  | (some rows, pr2) => .ok (rows.map rowToFeatureAttribute, pr2)

/-! ## Definitions following the wording of the specification.  These state the
settings-resolution algorithm the way the spec describes it; the refinement
theorem compares them with the source-translated getSettingsOfFeature. -/

/-- Spec wording (settings resolution, step 2): an attribute is excluded only
when its fromYear is after yearTo or its toYear is before yearFrom; absent
bounds are unbounded. -/
def specWindowOverlaps (y1 y2 : Int) (a : FeatureAttribute) : Bool :=
  !((match a.fromYear with | some fy => decide (fy > y2) | none => false) ||
    (match a.toYear with | some ty => decide (ty < y1) | none => false))

/-- Spec wording: the Standard-level setting stored for a feature type. -/
def specStandardSetting (s : IAMStorage) (ftype : Int) : Option FeatureSettings :=
  s.getAllSettings.find? (fun st =>
    st.featureType == ftype && st.levelType == LEVEL_STANDARD)

/-- Spec wording: the Attribute-level setting stored for an attribute (name,
value). -/
def specAttributeSetting (s : IAMStorage) (ftype : Int) (nm vl : String) :
    Option FeatureSettings :=
  s.getAllSettings.find? (fun st =>
    st.featureType == ftype && st.levelType == LEVEL_ATTRIBUTE &&
    st.levelName == some nm && st.levelValue == some vl)

/-- Spec wording: the Feature-level setting stored for a feature id. -/
def specFeatureSetting (s : IAMStorage) (ftype : Int) (fid : String) :
    Option FeatureSettings :=
  s.getAllSettings.find? (fun st =>
    st.featureType == ftype && st.levelType == LEVEL_FEATURE && st.levelName == some fid)

/-- Spec wording (settings resolution, steps 2-5): the sequence of settings
merged on top of the standard settings — the feature's window-overlapping
attributes in ascending fromYear order each contribute their matching
Attribute-level setting, followed (when the attribute's fromYear lies inside
the window) by the matching hasChanged setting, and the Feature-level setting
comes last with highest priority. -/
def specMergeSequence (s : IAMStorage) (ftype : Int) (f : ExtendedFeature) (y1 y2 : Int) :
    List FeatureSettings :=
  (sortByFromYear (f.attributes.filter (specWindowOverlaps y1 y2))).flatMap (fun a =>
    match specAttributeSetting s ftype a.propertyName a.propertyValue with
    | some st =>
      st :: (if fromYearInWindow y1 y2 a then
        (specAttributeSetting s ftype a.propertyName "_iam_hasChanged").toList else [])
    | none => [])
  ++ (specFeatureSetting s ftype f.id).toList

/-- Spec wording: resolution = the merge sequence folded on top of the
Standard-level setting. -/
def specResolveSettings (s : IAMStorage) (ftype : Int) (f : ExtendedFeature) (y1 y2 : Int) :
    Option FeatureSettings :=
  (specStandardSetting s ftype).map (fun std =>
    (specMergeSequence s ftype f y1 y2).foldl FeatureSettings.merge std)

/-! ## Store operation sequences (for the reachable-state invariant) -/

def emptyProcessResult : ProcessResult := { status := INFO, text := "", details := [] }

/-- The mutating store operations named by the invariant claim. -/
inductive StoreOp where
  | addSetting : FeatureSettings → StoreOp
  | loadFeatures : List ExtendedFeature → Int → StoreOp
  | loadProps : List FeatureProperty → Int → StoreOp
  | loadAtts : List FeatureAttribute → Int → StoreOp
  | loadSettings : List FeatureSettings → Int → StoreOp

def applyStoreOp (s : IAMStorage) : StoreOp → IAMStorage
  | .addSetting st => s.addSetting st
  | .loadFeatures ds mode => (s.loadFeatures ds mode emptyProcessResult).1
  | .loadProps ds mode => (s.loadFeaturesProperties ds mode emptyProcessResult).1
  | .loadAtts ds mode => (s.loadFeaturesAttributes ds mode emptyProcessResult).1
  | .loadSettings ds mode => (s.loadSettings ds mode emptyProcessResult).1

/-- A store reached from initialization by a sequence of operations. -/
def runStoreOps (ops : List StoreOp) : IAMStorage :=
  ops.foldl applyStoreOp initStorage

/-! ## Concrete instances used by witnesses and counterexamples -/

def borderWidthOne : Border := mkBorder { emptyBorder with width := some 1 }

def borderWidthTwo : Border :=
  mkBorder { emptyBorder with width := some 2, lineDash1 := some 4 }

def witnessPropA : FeatureProperty :=
  { featureType := POINT, featureId := "A", propertyName := "population", propertyValue := "1000" }

def witnessPropB : FeatureProperty :=
  { featureType := POINT, featureId := "A", propertyName := "population", propertyValue := "2000" }

def witnessAttA : FeatureAttribute :=
  { featureType := POINT, featureId := "A", propertyName := "population",
    propertyValue := "1000", fromYear := some 1900, fromMonth := none, fromDay := none,
    toYear := some 1950, toMonth := none, toDay := none }

def witnessAttB : FeatureAttribute :=
  { featureType := POINT, featureId := "A", propertyName := "population",
    propertyValue := "2000", fromYear := some 1950, fromMonth := none, fromDay := none,
    toYear := none, toMonth := none, toDay := none }

def witnessFeatureA : ExtendedFeature := mkExtendedFeature POINT "A" (.pt 5 6)

/-- A store holding one point feature (used by the export and table-query
scenarios). -/
def storeWithFeatureA : IAMStorage :=
  (initStorage.loadFeatures [witnessFeatureA] OVERWRITE emptyProcessResult).1

/-- A settings record with Standard levelType but a levelName different from
the seeded one (constructible through addSetting or a crafted settings
file). -/
def rogueStandardSettings : FeatureSettings :=
  { pointStandardSettings with levelName := some "X" }

/-- An Attribute-level setting used by the resolution witness. -/
def witnessAttributeSetting : FeatureSettings :=
  { featureType := POINT
    levelType := LEVEL_ATTRIBUTE
    levelName := some "population"
    levelValue := some "1000"
    showFeature := none
    showText := some true
    textSettings := none
    variant := .point { pointRadius := some 9 } }

/-- A store with one feature, one attribute on it, and one Attribute-level
setting (used by the resolution witness). -/
def witnessResolutionStore : IAMStorage :=
  ((storeWithFeatureA.loadFeaturesAttributes [witnessAttA] OVERWRITE
      emptyProcessResult).1).addSetting witnessAttributeSetting

/-- The feature as stored after the attribute load (the attribute list is
filled in by insertAttribute). -/
def witnessFeatureLoaded : ExtendedFeature :=
  { witnessFeatureA with attributes := [witnessAttA] }

def csvFailingPayload : String := "a,b\nc,d"

def csvInitialProcessResult : ProcessResult :=
  { status := INFO, text := "Features Attributes loaded successfully!", details := [] }

/-- Whether one key value passes one filter (an absent filter accepts every
key). -/
def passesKey (f : KeyFilter) (v : JSKey) : Bool :=
  match f with
  | some p => p v
  | none => true

/-- Whether a record's key tuple passes a filter list (used to state what the
filtered table scans compute). -/
def passesFilters : List KeyFilter → List JSKey → Bool
  | [], [] => true
  | f :: fs, v :: vs => passesKey f v && passesFilters fs vs
  | _, _ => false

/-- The terminal key path under which the seeded Standard-level settings of a
feature type are stored. -/
def stdPath (ft : Int) : List JSKey :=
  [.num ft, .num LEVEL_STANDARD, .str "Standard", .str ""]

/-- One feature type's part of the settings-table invariant: exactly one
record sits at the seeded Standard slot, and its identity fields spell that
slot. -/
def stdSlotOK (ft : Int) (t : IAMMapTable FeatureSettings) : Prop :=
  ∃ st : FeatureSettings, slotListM (stdPath ft) t.mapTable = [st] ∧
    st.featureType = ft ∧ st.levelType = LEVEL_STANDARD ∧
    st.levelName = some "Standard" ∧ st.levelValue = some ""

/-- The settings-table invariant maintained by every store operation: the key
schema is the settings schema, the table is well formed, and every feature
type has its Standard slot filled by exactly one record. -/
def settingsInv (t : IAMMapTable FeatureSettings) : Prop :=
  t.primaryKeys = featureSettingsKeys ∧
  wfm (fun _ => true) featureSettingsKeys t.mapTable = true ∧
  ∀ ft : Int, ft = POINT ∨ ft = LINESTRING ∨ ft = POLYGON → stdSlotOK ft t

/-! # Theorems

First the generic lemmas about the nested-Map table, then the claim
theorems. -/

theorem mapGet_cons {β : Type} (e : JSKey × β) (m : List (JSKey × β)) (k : JSKey) :
    mapGet (e :: m) k = if e.1 == k then some e.2 else mapGet m k := by
  simp only [mapGet, List.find?]
  cases h : e.1 == k <;> simp [h]

theorem mapGet_append {β : Type} (m1 m2 : List (JSKey × β)) (k : JSKey) :
    mapGet (m1 ++ m2) k = (mapGet m1 k).or (mapGet m2 k) := by
  induction m1 with
  | nil => simp [mapGet]
  | cons e rest ih =>
    rw [List.cons_append, mapGet_cons, mapGet_cons]
    cases h : e.1 == k <;> simp [ih]

theorem mapGet_none_of_any_false {β : Type} (m : List (JSKey × β)) (k : JSKey)
    (h : m.any (fun e => e.1 == k) = false) : mapGet m k = none := by
  induction m with
  | nil => rfl
  | cons e rest ih =>
    simp only [List.any_cons, Bool.or_eq_false_iff] at h
    rw [mapGet_cons, h.1]
    simp [ih h.2]

theorem mapGet_map_set_self {β : Type} (m : List (JSKey × β)) (k : JSKey) (v : β) :
    mapGet (m.map (fun e => if e.1 == k then (k, v) else e)) k =
      if m.any (fun e => e.1 == k) then some v else none := by
  induction m with
  | nil => simp [mapGet]
  | cons e rest ih =>
    by_cases h : e.1 = k
    · simp [mapGet_cons, h]
    · have hbe : (e.1 == k) = false := by simp [h]
      simp only [List.map_cons, List.any_cons, hbe, Bool.false_or, if_false]
      rw [mapGet_cons]
      simp only [hbe, Bool.false_eq_true, if_false]
      exact ih

theorem mapGet_map_set_other {β : Type} (m : List (JSKey × β)) (k k2 : JSKey) (v : β)
    (hne : k2 ≠ k) :
    mapGet (m.map (fun e => if e.1 == k then (k, v) else e)) k2 = mapGet m k2 := by
  induction m with
  | nil => rfl
  | cons e rest ih =>
    by_cases h : e.1 = k
    · have hk2 : k ≠ k2 := fun hc => hne hc.symm
      simp only [List.map_cons]
      simp [mapGet_cons, h, hk2] at ih ⊢
      exact ih
    · by_cases h2 : e.1 = k2
      · simp [mapGet_cons, h, h2, hne]
      · simp only [List.map_cons]
        simp [mapGet_cons, h, h2] at ih ⊢
        exact ih

theorem mapGet_mapSet {β : Type} (m : List (JSKey × β)) (k k2 : JSKey) (v : β) :
    mapGet (mapSet m k v) k2 = if k2 = k then some v else mapGet m k2 := by
  unfold mapSet
  cases hany : m.any (fun e => e.1 == k)
  · simp only [Bool.false_eq_true, if_false]
    rw [mapGet_append]
    by_cases hk : k2 = k
    · subst hk
      rw [mapGet_none_of_any_false m k2 hany]
      simp [mapGet_cons]
    · have hkk : k ≠ k2 := fun hc => hk hc.symm
      have hone : mapGet [(k, v)] k2 = none := by simp [mapGet_cons, hkk, mapGet]
      simp only [hk, if_false, hone]
      cases hg : mapGet m k2 <;> simp
  · simp only [if_true]
    by_cases hk : k2 = k
    · subst hk
      rw [mapGet_map_set_self, hany]
      simp
    · simp only [hk, if_false]
      exact mapGet_map_set_other m k k2 v hk

theorem mapGet_mem {β : Type} {m : List (JSKey × β)} {k : JSKey} {v : β}
    (h : mapGet m k = some v) : (k, v) ∈ m := by
  induction m with
  | nil => simp [mapGet] at h
  | cons e rest ih =>
    rw [mapGet_cons] at h
    by_cases he : e.1 = k
    · simp only [he, beq_self_eq_true, if_true, Option.some.injEq] at h
      have he2 : e = (k, v) := by
        cases e with
        | mk e1 e2 =>
          simp only at he h
          rw [he, h]
      rw [he2]
      exact List.mem_cons_self _ _
    · have hbe : (e.1 == k) = false := by simp [he]
      rw [hbe] at h
      simp only [Bool.false_eq_true, if_false] at h
      exact List.mem_cons_of_mem _ (ih h)

theorem mapGet_eq_none_iff {β : Type} (m : List (JSKey × β)) (k : JSKey) :
    mapGet m k = none ↔ m.any (fun e => e.1 == k) = false := by
  induction m with
  | nil => simp [mapGet]
  | cons e rest ih =>
    rw [mapGet_cons, List.any_cons]
    by_cases h : e.1 = k <;> simp [h, ih]

theorem and_true_left {a b : Bool} (h : (a && b) = true) : a = true := by
  cases a
  · simp at h
  · rfl

theorem and_true_right {a b : Bool} (h : (a && b) = true) : b = true := by
  cases b
  · simp at h
  · rfl

theorem filter_flatMap {α β : Type} (l : List α) (g : α → List β) (p : β → Bool) :
    (l.flatMap g).filter p = l.flatMap (fun a => (g a).filter p) := by
  induction l with
  | nil => rfl
  | cons a as ih => simp [List.flatMap_cons, List.filter_append, ih]

theorem flatMap_filter {α β : Type} (l : List α) (q : α → Bool) (g : α → List β) :
    (l.filter q).flatMap g = l.flatMap (fun a => if q a then g a else []) := by
  induction l with
  | nil => rfl
  | cons a as ih =>
    by_cases h : q a = true
    · simp only [List.filter_cons, h, if_true, List.flatMap_cons]
      rw [ih]
    · have hb : q a = false := by revert h; cases q a <;> simp
      simp only [List.filter_cons, hb, Bool.false_eq_true, if_false, List.flatMap_cons,
        List.nil_append]
      exact ih

theorem flatMap_congr_mem {α β : Type} {l : List α} {f g : α → List β}
    (h : ∀ a ∈ l, f a = g a) : l.flatMap f = l.flatMap g := by
  induction l with
  | nil => rfl
  | cons a as ih =>
    simp only [List.flatMap_cons]
    rw [h a (by simp), ih (fun x hx => h x (by simp [hx]))]

theorem filter_congr_mem {α : Type} {l : List α} {p q : α → Bool}
    (h : ∀ a ∈ l, p a = q a) : l.filter p = l.filter q := by
  induction l with
  | nil => rfl
  | cons a as ih =>
    simp only [List.filter_cons]
    rw [h a (by simp), ih (fun x hx => h x (by simp [hx]))]

theorem head_filter_eq_find {α : Type} (p : α → Bool) (l : List α) :
    (l.filter p).head? = l.find? p := by
  induction l with
  | nil => rfl
  | cons a as ih =>
    simp only [List.filter_cons, List.find?]
    cases h : p a <;> simp [ih]

theorem filter_const_false {α : Type} (l : List α) : l.filter (fun _ => false) = [] := by
  induction l with
  | nil => rfl
  | cons a as ih => simp [List.filter_cons, ih]

theorem filter_const_true {α : Type} (l : List α) : l.filter (fun _ => true) = l := by
  induction l with
  | nil => rfl
  | cons a as ih => simp [List.filter_cons, ih]

theorem wfm_nil {α : Type} (pfx : α → Bool) (keys : List (α → JSKey)) (hk : keys ≠ []) :
    wfm pfx keys [] = true := by
  match keys with
  | [k] => rfl
  | k :: k2 :: ks => rfl

theorem slotListM_nil {α : Type} (p : List JSKey) :
    slotListM p ([] : List (JSKey × MTree α)) = [] := by
  match p with
  | [] => rfl
  | [v] => rfl
  | v :: v2 :: vs => rfl

theorem replaceOrAppend_nil {α : Type} (eqb : α → α → Bool) (item : α) :
    replaceOrAppend eqb item [] = [item] := rfl

theorem any_key_map_set {β : Type} (m : List (JSKey × β)) (k x : JSKey) (v : β) :
    (m.map (fun e => if e.1 == k then (k, v) else e)).any (fun e2 => e2.1 == x) =
      m.any (fun e2 => e2.1 == x) := by
  induction m with
  | nil => rfl
  | cons e rest ih =>
    simp only [List.map_cons, List.any_cons]
    rw [ih]
    by_cases h : e.1 = k <;> simp [h]

theorem distinctKeys_map_set {β : Type} (m : List (JSKey × β)) (k : JSKey) (v : β) :
    distinctKeys (m.map (fun e => if e.1 == k then (k, v) else e)) = distinctKeys m := by
  induction m with
  | nil => rfl
  | cons e rest ih =>
    by_cases h : e.1 = k
    · simp only [List.map_cons, h, beq_self_eq_true, if_true, distinctKeys]
      rw [any_key_map_set, ih]
    · have hb : (e.1 == k) = false := by simp [h]
      simp only [List.map_cons, hb, Bool.false_eq_true, if_false, distinctKeys]
      rw [any_key_map_set, ih]

theorem distinctKeys_append_new {β : Type} {m : List (JSKey × β)} {k : JSKey} (v : β)
    (h : m.any (fun e => e.1 == k) = false) (hd : distinctKeys m = true) :
    distinctKeys (m ++ [(k, v)]) = true := by
  induction m with
  | nil => simp [distinctKeys]
  | cons e rest ih =>
    simp only [List.any_cons, Bool.or_eq_false_iff] at h
    simp only [distinctKeys, Bool.and_eq_true] at hd
    have hke : ((k, v).1 == e.1) = false := by
      simp only
      rw [beq_eq_false_iff_ne]
      intro hc
      exact (beq_eq_false_iff_ne.mp h.1) hc.symm
    simp only [List.cons_append, distinctKeys, Bool.and_eq_true, List.append_eq,
      List.any_append, List.any_cons, List.any_nil, hke, Bool.or_false, Bool.not_eq_true',
      Bool.or_eq_false_iff]
    constructor
    · simpa using hd.1
    · exact ih h.2 hd.2

theorem wfm_one_parts {α : Type} {pfx : α → Bool} {k : α → JSKey} {m : List (JSKey × MTree α)}
    (h : wfm pfx [k] m = true) :
    distinctKeys m = true ∧
    ∀ e ∈ m, (match e.2 with
      | MTree.leaf l => l.all (fun x => pfx x && (k x == e.1))
      | MTree.node _ => false) = true := by
  unfold wfm at h
  rw [Bool.and_eq_true] at h
  exact ⟨h.1, List.all_eq_true.mp h.2⟩

theorem wfm_cons_parts {α : Type} {pfx : α → Bool} {k k2 : α → JSKey} {ks : List (α → JSKey)}
    {m : List (JSKey × MTree α)} (h : wfm pfx (k :: k2 :: ks) m = true) :
    distinctKeys m = true ∧
    ∀ e ∈ m, (match e.2 with
      | MTree.node m2 => wfm (fun x => pfx x && (k x == e.1)) (k2 :: ks) m2
      | MTree.leaf _ => false) = true := by
  unfold wfm at h
  rw [Bool.and_eq_true] at h
  exact ⟨h.1, List.all_eq_true.mp h.2⟩

theorem wfm_one_intro {α : Type} {pfx : α → Bool} {k : α → JSKey} {m : List (JSKey × MTree α)}
    (hd : distinctKeys m = true)
    (ha : ∀ e ∈ m, (match e.2 with
      | MTree.leaf l => l.all (fun x => pfx x && (k x == e.1))
      | MTree.node _ => false) = true) : wfm pfx [k] m = true := by
  unfold wfm
  rw [Bool.and_eq_true]
  exact ⟨hd, List.all_eq_true.mpr ha⟩

theorem wfm_cons_intro {α : Type} {pfx : α → Bool} {k k2 : α → JSKey} {ks : List (α → JSKey)}
    {m : List (JSKey × MTree α)} (hd : distinctKeys m = true)
    (ha : ∀ e ∈ m, (match e.2 with
      | MTree.node m2 => wfm (fun x => pfx x && (k x == e.1)) (k2 :: ks) m2
      | MTree.leaf _ => false) = true) : wfm pfx (k :: k2 :: ks) m = true := by
  unfold wfm
  rw [Bool.and_eq_true]
  exact ⟨hd, List.all_eq_true.mpr ha⟩

/-- Well-formedness is preserved by addItem, provided the inserted record
satisfies the accumulated prefix predicate. -/
theorem wfm_addItemM {α : Type} (eqb : α → α → Bool) (item : α) :
    ∀ (keys : List (α → JSKey)) (pfx : α → Bool), pfx item = true →
    ∀ (m : List (JSKey × MTree α)), wfm pfx keys m = true →
    wfm pfx keys (addItemM eqb item keys m) = true := by
  intro keys
  induction keys with
  | nil => intro pfx _ m h; exact h
  | cons k rest ih =>
    cases rest with
    | nil =>
      intro pfx hp m hm
      show wfm pfx [k] (addItemM eqb item [k] m) = true
      unfold addItemM
      cases hg : mapGet m (k item) with
      | none =>
        have hany : (m.any (fun e => e.1 == k item)) = false :=
          (mapGet_eq_none_iff m (k item)).mp hg
        obtain ⟨hmd, hma⟩ := wfm_one_parts hm
        unfold mapSet
        rw [hany]
        simp only [Bool.false_eq_true, if_false]
        apply wfm_one_intro
        · exact distinctKeys_append_new _ hany hmd
        · intro e he
          rw [List.mem_append] at he
          cases he with
          | inl he => exact hma e he
          | inr he =>
            simp only [List.mem_singleton] at he
            rw [he]
            simp [hp]
      | some t =>
        cases t with
        | node m2 =>
          have hmem := mapGet_mem hg
          have := (wfm_one_parts hm).2 _ hmem
          simp at this
        | leaf l =>
          have hmem := mapGet_mem hg
          obtain ⟨hmd, hma⟩ := wfm_one_parts hm
          have hl := hma _ hmem
          simp only at hl
          unfold mapSet
          cases hany : m.any (fun e => e.1 == k item)
          · have : mapGet m (k item) = none := mapGet_none_of_any_false m _ hany
            rw [this] at hg
            exact absurd hg (by simp)
          · simp only [if_true]
            apply wfm_one_intro (distinctKeys_map_set m (k item) _ ▸ hmd)
            intro e hmem2
            rw [List.mem_map] at hmem2
            obtain ⟨e0, he0, he0e⟩ := hmem2
            by_cases hk0 : e0.1 = k item
            · have : e = (k item, MTree.leaf (replaceOrAppend eqb item l)) := by
                rw [← he0e]
                simp [hk0]
              rw [this]
              simp only
              rw [List.all_eq_true]
              intro x hx
              have hlall : ∀ x ∈ l, (pfx x && (k x == k item)) = true := by
                rw [List.all_eq_true] at hl
                intro x hx
                have := hl x hx
                simpa using this
              unfold replaceOrAppend at hx
              by_cases hrep : l.any (fun stored => eqb stored item) = true
              · rw [if_pos hrep] at hx
                rw [List.mem_map] at hx
                obtain ⟨x0, hx0, hx0e⟩ := hx
                by_cases heq : eqb x0 item = true
                · rw [← hx0e]
                  simp [heq, hp]
                · rw [← hx0e]
                  simp only [heq]
                  simp only [Bool.false_eq_true, if_false]
                  exact hlall x0 hx0
              · rw [if_neg hrep] at hx
                rw [List.mem_append] at hx
                cases hx with
                | inl hx => exact hlall _ hx
                | inr hx =>
                  simp only [List.mem_singleton] at hx
                  rw [hx]
                  simp [hp]
            · have : e = e0 := by rw [← he0e]; simp [hk0]
              rw [this]
              exact hma _ he0
    | cons k2 ks =>
      intro pfx hp m hm
      show wfm pfx (k :: k2 :: ks) (addItemM eqb item (k :: k2 :: ks) m) = true
      unfold addItemM
      cases hg : mapGet m (k item) with
      | none =>
        have hany : (m.any (fun e => e.1 == k item)) = false :=
          (mapGet_eq_none_iff m (k item)).mp hg
        obtain ⟨hmd, hma⟩ := wfm_cons_parts hm
        unfold mapSet
        rw [hany]
        simp only [Bool.false_eq_true, if_false]
        apply wfm_cons_intro
        · exact distinctKeys_append_new _ hany hmd
        · intro e he
          rw [List.mem_append] at he
          cases he with
          | inl he => exact hma e he
          | inr he =>
            simp only [List.mem_singleton] at he
            rw [he]
            exact ih (fun x => pfx x && (k x == k item)) (by simp [hp]) []
              (wfm_nil _ _ (by simp))
      | some t =>
        cases t with
        | leaf l =>
          have hmem := mapGet_mem hg
          have := (wfm_cons_parts hm).2 _ hmem
          simp at this
        | node m2 =>
          have hmem := mapGet_mem hg
          obtain ⟨hmd, hma⟩ := wfm_cons_parts hm
          have hsub := hma _ hmem
          simp only at hsub
          unfold mapSet
          cases hany : m.any (fun e => e.1 == k item)
          · have : mapGet m (k item) = none := mapGet_none_of_any_false m _ hany
            rw [this] at hg
            exact absurd hg (by simp)
          · simp only [if_true]
            apply wfm_cons_intro (distinctKeys_map_set m (k item) _ ▸ hmd)
            intro e hmem2
            rw [List.mem_map] at hmem2
            obtain ⟨e0, he0, he0e⟩ := hmem2
            by_cases hk0 : e0.1 = k item
            · have : e = (k item, MTree.node (addItemM eqb item (k2 :: ks) m2)) := by
                rw [← he0e]
                simp [hk0]
              rw [this]
              simp only
              exact ih (fun x => pfx x && (k x == k item)) (by simp [hp]) m2 hsub
            · have : e = e0 := by rw [← he0e]; simp [hk0]
              rw [this]
              exact hma _ he0

theorem slotListM_one_leaf {α : Type} {m : List (JSKey × MTree α)} {v : JSKey} {l : List α}
    (h : mapGet m v = some (.leaf l)) : slotListM [v] m = l := by
  simp [slotListM, h]

theorem slotListM_one_none {α : Type} {m : List (JSKey × MTree α)} {v : JSKey}
    (h : mapGet m v = none) : slotListM [v] m = [] := by
  simp [slotListM, h]

theorem slotListM_one_node {α : Type} {m : List (JSKey × MTree α)} {v : JSKey} {m2}
    (h : mapGet m v = some (.node m2)) : slotListM [v] m = [] := by
  simp [slotListM, h]

theorem slotListM_cons2_node {α : Type} {m : List (JSKey × MTree α)} {v : JSKey} {m2}
    (v2 : JSKey) (ps : List JSKey) (h : mapGet m v = some (.node m2)) :
    slotListM (v :: v2 :: ps) m = slotListM (v2 :: ps) m2 := by
  simp [slotListM, h]

theorem slotListM_cons2_none {α : Type} {m : List (JSKey × MTree α)} {v : JSKey}
    (v2 : JSKey) (ps : List JSKey) (h : mapGet m v = none) :
    slotListM (v :: v2 :: ps) m = [] := by
  simp [slotListM, h]

theorem slotListM_cons2_leaf {α : Type} {m : List (JSKey × MTree α)} {v : JSKey} {l}
    (v2 : JSKey) (ps : List JSKey) (h : mapGet m v = some (.leaf l)) :
    slotListM (v :: v2 :: ps) m = [] := by
  simp [slotListM, h]

/-- A slot is unchanged when the first-level lookup is unchanged. -/
theorem slotListM_eq_of_get_eq {α : Type} {m m2 : List (JSKey × MTree α)} {v : JSKey}
    (ps : List JSKey) (h : mapGet m2 v = mapGet m v) :
    slotListM (v :: ps) m2 = slotListM (v :: ps) m := by
  cases ps <;> simp [slotListM, h]

/-- The effect of addItem on terminal slots: the slot addressed by the new
item's own key tuple is updated by replaceOrAppend, every other slot is
untouched. -/
theorem slotListM_addItemM {α : Type} (eqb : α → α → Bool) (item : α) :
    ∀ (keys : List (α → JSKey)) (pfx : α → Bool) (m : List (JSKey × MTree α)) (p : List JSKey),
    wfm pfx keys m = true → p.length = keys.length →
    slotListM p (addItemM eqb item keys m) =
      (if p = keyPath keys item then replaceOrAppend eqb item (slotListM p m)
       else slotListM p m) := by
  intro keys
  induction keys with
  | nil => intro pfx m p hm hp; simp [wfm] at hm
  | cons k rest ih =>
    cases rest with
    | nil =>
      intro pfx m p hm hp
      cases p with
      | nil => simp at hp
      | cons v ps =>
        cases ps with
        | cons v2 ps2 => simp at hp
        | nil =>
          have hpath : keyPath [k] item = [k item] := rfl
          rw [hpath]
          unfold addItemM
          cases hg : mapGet m (k item) with
          | none =>
            by_cases hv : v = k item
            · subst hv
              have h1 : mapGet (mapSet m (k item) (MTree.leaf [item])) (k item) =
                  some (.leaf [item]) := by
                rw [mapGet_mapSet]; simp
              rw [slotListM_one_leaf h1, if_pos rfl, slotListM_one_none hg,
                replaceOrAppend_nil]
            · have h1 : mapGet (mapSet m (k item) (MTree.leaf [item])) v = mapGet m v := by
                rw [mapGet_mapSet, if_neg hv]
              rw [slotListM_eq_of_get_eq _ h1, if_neg (by simp [hv])]
          | some t =>
            cases t with
            | node m2 =>
              have hmem := mapGet_mem hg
              have := (wfm_one_parts hm).2 _ hmem
              simp at this
            | leaf l =>
              by_cases hv : v = k item
              · subst hv
                have h1 : mapGet (mapSet m (k item) (MTree.leaf (replaceOrAppend eqb item l)))
                    (k item) = some (.leaf (replaceOrAppend eqb item l)) := by
                  rw [mapGet_mapSet]; simp
                rw [slotListM_one_leaf h1, if_pos rfl, slotListM_one_leaf hg]
              · have h1 : mapGet (mapSet m (k item) (MTree.leaf (replaceOrAppend eqb item l))) v =
                    mapGet m v := by
                  rw [mapGet_mapSet, if_neg hv]
                rw [slotListM_eq_of_get_eq _ h1, if_neg (by simp [hv])]
    | cons k2 ks =>
      intro pfx m p hm hp
      cases p with
      | nil => simp at hp
      | cons v ps =>
        cases ps with
        | nil => simp at hp
        | cons v2 ps2 =>
          have hpath : keyPath (k :: k2 :: ks) item = k item :: keyPath (k2 :: ks) item := rfl
          rw [hpath]
          unfold addItemM
          cases hg : mapGet m (k item) with
          | none =>
            by_cases hv : v = k item
            · subst hv
              have h1 : mapGet (mapSet m (k item) (MTree.node (addItemM eqb item (k2 :: ks) [])))
                  (k item) = some (.node (addItemM eqb item (k2 :: ks) [])) := by
                rw [mapGet_mapSet]; simp
              rw [slotListM_cons2_node _ _ h1, slotListM_cons2_none _ _ hg]
              have hr := ih (fun x => pfx x && (k x == k item)) [] (v2 :: ps2)
                (wfm_nil _ _ (by simp)) (by simpa using hp)
              rw [hr, slotListM_nil]
              by_cases ht : v2 :: ps2 = keyPath (k2 :: ks) item
              · rw [if_pos ht, if_pos (by rw [ht])]
              · rw [if_neg ht, if_neg (by intro hc; exact ht (List.cons.injEq .. |>.mp hc).2)]
            · have h1 : mapGet (mapSet m (k item) (MTree.node (addItemM eqb item (k2 :: ks) []))) v =
                  mapGet m v := by
                rw [mapGet_mapSet, if_neg hv]
              rw [slotListM_eq_of_get_eq _ h1,
                if_neg (by intro hc; exact hv (List.cons.injEq .. |>.mp hc).1)]
          | some t =>
            cases t with
            | leaf l =>
              have hmem := mapGet_mem hg
              have := (wfm_cons_parts hm).2 _ hmem
              simp at this
            | node m2 =>
              have hmem := mapGet_mem hg
              have hsub := (wfm_cons_parts hm).2 _ hmem
              simp only at hsub
              by_cases hv : v = k item
              · subst hv
                have h1 : mapGet (mapSet m (k item) (MTree.node (addItemM eqb item (k2 :: ks) m2)))
                    (k item) = some (.node (addItemM eqb item (k2 :: ks) m2)) := by
                  rw [mapGet_mapSet]; simp
                rw [slotListM_cons2_node _ _ h1, slotListM_cons2_node _ _ hg]
                have hr := ih (fun x => pfx x && (k x == k item)) m2 (v2 :: ps2)
                  hsub (by simpa using hp)
                rw [hr]
                by_cases ht : v2 :: ps2 = keyPath (k2 :: ks) item
                · rw [if_pos ht, if_pos (by rw [ht])]
                · rw [if_neg ht, if_neg (by intro hc; exact ht (List.cons.injEq .. |>.mp hc).2)]
              · have h1 : mapGet (mapSet m (k item) (MTree.node (addItemM eqb item (k2 :: ks) m2))) v =
                    mapGet m v := by
                  rw [mapGet_mapSet, if_neg hv]
                rw [slotListM_eq_of_get_eq _ h1,
                  if_neg (by intro hc; exact hv (List.cons.injEq .. |>.mp hc).1)]

/-- Every record collected by the unfiltered scan of a well-formed table body
satisfies the accumulated prefix predicate. -/
theorem getAllItemsRec_pfx {α : Type} :
    ∀ (keys : List (α → JSKey)) (pfx : α → Bool) (m : List (JSKey × MTree α)),
    wfm pfx keys m = true →
    ∀ x ∈ getAllItemsRec (List.replicate keys.length (none : KeyFilter)) m, pfx x = true := by
  intro keys
  induction keys with
  | nil => intro pfx m hm; simp [wfm] at hm
  | cons k rest ih =>
    cases rest with
    | nil =>
      intro pfx m hm x hx
      obtain ⟨hmd, hma⟩ := wfm_one_parts hm
      simp only [List.length_cons, List.length_nil, List.replicate, getAllItemsRec,
        filterEntries] at hx
      rw [List.mem_flatMap] at hx
      obtain ⟨e, hem, hxe⟩ := hx
      have hme := hma e hem
      cases ht : e.2 with
      | node m2 => rw [ht] at hxe; simp at hxe
      | leaf l =>
        rw [ht] at hxe hme
        simp only at hme
        rw [List.all_eq_true] at hme
        have h2 := hme x hxe
        exact and_true_left h2
    | cons k2 ks =>
      intro pfx m hm x hx
      obtain ⟨hmd, hma⟩ := wfm_cons_parts hm
      simp only [List.length_cons, List.replicate, getAllItemsRec, filterEntries] at hx
      rw [List.mem_flatMap] at hx
      obtain ⟨e, hem, hxe⟩ := hx
      have hme := hma e hem
      cases ht : e.2 with
      | leaf l => rw [ht] at hxe; simp at hxe
      | node m2 =>
        rw [ht] at hme hxe
        simp only at hme
        have hx2 : x ∈ getAllItemsRec (List.replicate (k2 :: ks).length (none : KeyFilter)) m2 := by
          simpa [List.replicate, List.length_cons] using hxe
        have := ih (fun y => pfx y && (k y == e.1)) m2 hme x hx2
        exact and_true_left this

theorem filterEntries_eq_filter {β : Type} (f : KeyFilter) (m : List (JSKey × β)) :
    filterEntries f m = m.filter (fun e => passesKey f e.1) := by
  cases f with
  | none =>
    show m = m.filter (fun _ => true)
    rw [filter_const_true]
  | some p => rfl

/-- The filtered scan of a well-formed table body computes exactly the filter
of the unfiltered scan by the record key tuples. -/
theorem getAllItemsRec_eq_filter {α : Type} :
    ∀ (keys : List (α → JSKey)) (fs : List KeyFilter) (pfx : α → Bool)
      (m : List (JSKey × MTree α)),
    wfm pfx keys m = true → fs.length = keys.length →
    getAllItemsRec fs m =
      (getAllItemsRec (List.replicate keys.length (none : KeyFilter)) m).filter
        (fun x => passesFilters fs (keyPath keys x)) := by
  intro keys
  induction keys with
  | nil => intro fs pfx m hm _; simp [wfm] at hm
  | cons k rest ih =>
    cases rest with
    | nil =>
      intro fs pfx m hm hlen
      obtain ⟨hmd, hma⟩ := wfm_one_parts hm
      cases fs with
      | nil => simp at hlen
      | cons f fs2 =>
        cases fs2 with
        | cons f2 fs3 => simp at hlen
        | nil =>
          simp only [List.length_cons, List.length_nil, List.replicate]
          show (filterEntries f m).flatMap _ =
            ((filterEntries (none : KeyFilter) m).flatMap _).filter _
          rw [filterEntries_eq_filter f m, flatMap_filter]
          show _ = (m.flatMap _).filter _
          rw [filter_flatMap]
          apply flatMap_congr_mem
          intro e hem
          have hme := hma e hem
          cases ht : e.2 with
          | node m2 => simp [ht]
          | leaf l =>
            rw [ht] at hme
            simp only at hme
            rw [List.all_eq_true] at hme
            have hcong : l.filter (fun x => passesFilters [f] (keyPath [k] x)) =
                l.filter (fun _ => passesKey f e.1) := by
              apply filter_congr_mem
              intro x hx
              have hkx : k x = e.1 := by
                have := and_true_right (hme x hx)
                simpa using this
              simp [passesFilters, keyPath, hkx]
            rw [hcong]
            cases hb : passesKey f e.1
            · simp only [hb, Bool.false_eq_true, if_false, filter_const_false]
            · simp only [hb, if_true, filter_const_true]
    | cons k2 ks =>
      intro fs pfx m hm hlen
      obtain ⟨hmd, hma⟩ := wfm_cons_parts hm
      cases fs with
      | nil => simp at hlen
      | cons f fs2 =>
        cases fs2 with
        | nil => simp at hlen
        | cons f2 fs3 =>
          simp only [List.length_cons, List.replicate]
          show (filterEntries f m).flatMap _ =
            ((filterEntries (none : KeyFilter) m).flatMap _).filter _
          rw [filterEntries_eq_filter f m, flatMap_filter]
          show _ = (m.flatMap _).filter _
          rw [filter_flatMap]
          apply flatMap_congr_mem
          intro e hem
          have hme := hma e hem
          cases ht : e.2 with
          | leaf l =>
            rw [ht] at hme
            simp at hme
          | node m2 =>
            rw [ht] at hme
            simp only at hme ⊢
            have hrep : (none :: List.replicate ks.length (none : KeyFilter)) =
                List.replicate (k2 :: ks).length (none : KeyFilter) := by
              simp [List.replicate]
            have hcong :
                (getAllItemsRec (none :: List.replicate ks.length (none : KeyFilter)) m2).filter
                  (fun x => passesFilters (f :: f2 :: fs3) (keyPath (k :: k2 :: ks) x)) =
                (getAllItemsRec (none :: List.replicate ks.length (none : KeyFilter)) m2).filter
                  (fun x => passesKey f e.1 &&
                    passesFilters (f2 :: fs3) (keyPath (k2 :: ks) x)) := by
              apply filter_congr_mem
              intro x hx
              have hpfx : (fun y => pfx y && (k y == e.1)) x = true := by
                apply getAllItemsRec_pfx (k2 :: ks) _ m2 hme x
                rw [← hrep] at *
                exact hx
              have hkx : k x = e.1 := by
                have := and_true_right hpfx
                simpa using this
              simp [passesFilters, keyPath, hkx]
            rw [hrep] at hcong ⊢
            rw [hcong]
            cases hb : passesKey f e.1
            · simp only [hb, Bool.false_eq_true, if_false, Bool.false_and]
              rw [filter_const_false]
            · simp only [hb, if_true, Bool.true_and]
              exact ih (f2 :: fs3) _ m2 hme (by simpa using hlen)

theorem filter_eq_nil_of_any_false {α : Type} {l : List α} {p : α → Bool}
    (h : l.any p = false) : l.filter p = [] := by
  induction l with
  | nil => rfl
  | cons a as ih =>
    simp only [List.any_cons, Bool.or_eq_false_iff] at h
    simp [List.filter_cons, h.1, ih h.2]

/-- On a Map with distinct keys, filtering the entries by one key yields the
unique binding of that key (or nothing). -/
theorem filter_key_of_distinct {β : Type} {m : List (JSKey × β)} (v : JSKey)
    (hd : distinctKeys m = true) :
    m.filter (fun e => e.1 == v) =
      (match mapGet m v with | some t => [(v, t)] | none => []) := by
  induction m with
  | nil => rfl
  | cons e rest ih =>
    simp only [distinctKeys] at hd
    rw [Bool.and_eq_true] at hd
    by_cases hev : e.1 = v
    · have hrest : rest.any (fun e2 => e2.1 == v) = false := by
        rw [← hev]
        simpa using hd.1
      have he2 : e = (v, e.2) := by
        cases e with
        | mk e1 e2 => simp only at hev ⊢; rw [hev]
      rw [mapGet_cons]
      simp only [List.filter_cons, hev, beq_self_eq_true, if_true]
      rw [filter_eq_nil_of_any_false hrest, he2]
    · have hbe : (e.1 == v) = false := by simp [hev]
      rw [mapGet_cons, hbe]
      simp only [List.filter_cons, hbe, Bool.false_eq_true, if_false]
      exact ih hd.2

/-- The scan with per-level exact-match filters along a key path returns
exactly the terminal slot of that path. -/
theorem getAllItemsRec_exact_eq_slot {α : Type} :
    ∀ (keys : List (α → JSKey)) (pfx : α → Bool) (m : List (JSKey × MTree α)) (p : List JSKey),
    wfm pfx keys m = true → p.length = keys.length →
    getAllItemsRec (p.map (fun v => some (fun k2 => k2 == v))) m = slotListM p m := by
  intro keys
  induction keys with
  | nil => intro pfx m p hm _; simp [wfm] at hm
  | cons k rest ih =>
    cases rest with
    | nil =>
      intro pfx m p hm hp
      obtain ⟨hmd, hma⟩ := wfm_one_parts hm
      cases p with
      | nil => simp at hp
      | cons v ps =>
        cases ps with
        | cons v2 ps2 => simp at hp
        | nil =>
          show (filterEntries (some (fun k2 => k2 == v)) m).flatMap _ = _
          show (m.filter (fun e => e.1 == v)).flatMap _ = _
          rw [filter_key_of_distinct v hmd]
          cases hg : mapGet m v with
          | none => rw [slotListM_one_none hg]; rfl
          | some t =>
            cases t with
            | leaf l =>
              rw [slotListM_one_leaf hg]
              simp [List.flatMap_cons]
            | node m2 =>
              rw [slotListM_one_node hg]
              simp [List.flatMap_cons]
    | cons k2 ks =>
      intro pfx m p hm hp
      obtain ⟨hmd, hma⟩ := wfm_cons_parts hm
      cases p with
      | nil => simp at hp
      | cons v ps =>
        cases ps with
        | nil => simp at hp
        | cons v2 ps2 =>
          show (filterEntries (some (fun k2 => k2 == v)) m).flatMap _ = _
          show (m.filter (fun e => e.1 == v)).flatMap _ = _
          rw [filter_key_of_distinct v hmd]
          cases hg : mapGet m v with
          | none => rw [slotListM_cons2_none _ _ hg]; rfl
          | some t =>
            cases t with
            | leaf l =>
              rw [slotListM_cons2_leaf _ _ hg]
              simp [List.flatMap_cons]
            | node m2 =>
              rw [slotListM_cons2_node _ _ hg]
              have hmem := mapGet_mem hg
              have hsub := hma _ hmem
              simp only at hsub
              simp only [List.flatMap_cons, List.flatMap_nil, List.append_nil]
              exact ih _ m2 (v2 :: ps2) hsub (by simpa using hp)

/-- getItem returns the first record of the terminal slot at the exact key
path. -/
theorem getItemM_eq_head_slot {α : Type} :
    ∀ (p : List JSKey) (m : List (JSKey × MTree α)),
    getItemM p m = (slotListM p m).head? := by
  intro p
  induction p with
  | nil => intro m; rfl
  | cons v ps ih =>
    intro m
    cases ps with
    | nil =>
      cases hg : mapGet m v with
      | none => rw [slotListM_one_none hg]; simp [getItemM, hg]
      | some t =>
        cases t with
        | leaf l => rw [slotListM_one_leaf hg]; simp [getItemM, hg]
        | node m2 => rw [slotListM_one_node hg]; simp [getItemM, hg]
    | cons v2 ps2 =>
      cases hg : mapGet m v with
      | none => rw [slotListM_cons2_none _ _ hg]; simp [getItemM, hg]
      | some t =>
        cases t with
        | leaf l => rw [slotListM_cons2_leaf _ _ hg]; simp [getItemM, hg]
        | node m2 => rw [slotListM_cons2_node _ _ hg]; simp [getItemM, hg]; exact ih m2

/-- updateHeadM rewrites only the head of the slot at the target path and
leaves every other slot unchanged. -/
theorem slotListM_updateHeadM {α : Type} (g : α → α) :
    ∀ (q : List JSKey) (m : List (JSKey × MTree α)) (p : List JSKey),
    slotListM p (updateHeadM q g m) =
      if p = q then headUpd g (slotListM p m) else slotListM p m := by
  intro q
  induction q with
  | nil =>
    intro m p
    show slotListM p m = _
    by_cases hp : p = []
    · subst hp; rw [if_pos rfl]; rfl
    · rw [if_neg hp]
  | cons w qs ih =>
    intro m p
    cases qs with
    | nil =>
      show slotListM p (match mapGet m w with
        | some (.leaf l) => mapSet m w (.leaf (headUpd g l))
        | _ => m) = _
      cases hg : mapGet m w with
      | none =>
        by_cases hp : p = [w]
        · subst hp; rw [if_pos rfl, slotListM_one_none hg]; rfl
        · rw [if_neg hp]
      | some t =>
        cases t with
        | node m2 =>
          by_cases hp : p = [w]
          · subst hp; rw [if_pos rfl, slotListM_one_node hg]; rfl
          · rw [if_neg hp]
        | leaf l =>
          by_cases hp : p = [w]
          · subst hp
            have h1 : mapGet (mapSet m w (MTree.leaf (headUpd g l))) w
                = some (.leaf (headUpd g l)) := by
              rw [mapGet_mapSet]; simp
            rw [if_pos rfl, slotListM_one_leaf h1, slotListM_one_leaf hg]
          · rw [if_neg hp]
            cases p with
            | nil => rfl
            | cons v ps =>
              by_cases hv : v = w
              · subst hv
                cases ps with
                | nil => exact absurd rfl hp
                | cons v2 ps2 =>
                  have h1 : mapGet (mapSet m v (MTree.leaf (headUpd g l))) v
                      = some (.leaf (headUpd g l)) := by
                    rw [mapGet_mapSet]; simp
                  rw [slotListM_cons2_leaf _ _ h1, slotListM_cons2_leaf _ _ hg]
              · have h1 : mapGet (mapSet m w (MTree.leaf (headUpd g l))) v
                    = mapGet m v := by
                  rw [mapGet_mapSet, if_neg hv]
                exact slotListM_eq_of_get_eq _ h1
    | cons w2 qs2 =>
      show slotListM p (match mapGet m w with
        | some (.node m2) => mapSet m w (.node (updateHeadM (w2 :: qs2) g m2))
        | _ => m) = _
      cases hg : mapGet m w with
      | none =>
        by_cases hp : p = w :: w2 :: qs2
        · subst hp; rw [if_pos rfl, slotListM_cons2_none _ _ hg]; rfl
        · rw [if_neg hp]
      | some t =>
        cases t with
        | leaf l =>
          by_cases hp : p = w :: w2 :: qs2
          · subst hp; rw [if_pos rfl, slotListM_cons2_leaf _ _ hg]; rfl
          · rw [if_neg hp]
        | node m2 =>
          cases p with
          | nil =>
            rw [if_neg (by simp)]; rfl
          | cons v ps =>
            by_cases hv : v = w
            · subst hv
              have h1 : mapGet (mapSet m v (MTree.node (updateHeadM (w2 :: qs2) g m2))) v
                  = some (.node (updateHeadM (w2 :: qs2) g m2)) := by
                rw [mapGet_mapSet]; simp
              cases ps with
              | nil =>
                rw [if_neg (by simp), slotListM_one_node h1, slotListM_one_node hg]
              | cons v2 ps2 =>
                rw [slotListM_cons2_node v2 ps2 h1, slotListM_cons2_node v2 ps2 hg, ih]
                by_cases ht : v2 :: ps2 = w2 :: qs2
                · rw [if_pos ht, if_pos (by rw [ht])]
                · rw [if_neg ht, if_neg (by simp [ht])]
            · have h1 : mapGet (mapSet m w (MTree.node (updateHeadM (w2 :: qs2) g m2))) v
                  = mapGet m v := by
                rw [mapGet_mapSet, if_neg hv]
              rw [if_neg (by simp [hv]), slotListM_eq_of_get_eq _ h1]

/-- Looking a key up in a level whose trees were transformed pointwise. -/
theorem mapGet_map_tree {α : Type} (f : MTree α → MTree α) (m : List (JSKey × MTree α))
    (v : JSKey) :
    mapGet (m.map (fun e => (e.1, f e.2))) v = (mapGet m v).map f := by
  induction m with
  | nil => rfl
  | cons e rest ih =>
    rw [List.map_cons, mapGet_cons, mapGet_cons]
    by_cases h : e.1 = v
    · simp [h]
    · have hb : (e.1 == v) = false := by simp [h]
      simp [hb, ih]

/-- mapItemsM transforms every terminal slot pointwise at full depth. -/
theorem slotListM_mapItemsM {α : Type} (g : α → α) :
    ∀ (keys : List (α → JSKey)) (m : List (JSKey × MTree α)) (p : List JSKey),
    p.length = keys.length →
    slotListM p (mapItemsM g keys m) = (slotListM p m).map g := by
  intro keys
  induction keys with
  | nil =>
    intro m p hp
    simp only [List.length_nil] at hp
    rw [List.length_eq_zero] at hp
    subst hp
    rfl
  | cons k rest ih =>
    cases rest with
    | nil =>
      intro m p hp
      cases p with
      | nil => simp at hp
      | cons v ps =>
        cases ps with
        | cons v2 ps2 => simp at hp
        | nil =>
          show slotListM [v] (m.map (fun e => (e.1,
            match e.2 with
            | .leaf l => MTree.leaf (l.map g)
            | .node m2 => MTree.node m2))) = _
          have h1 := mapGet_map_tree (fun t =>
            match t with
            | .leaf l => MTree.leaf (l.map g)
            | .node m2 => MTree.node m2) m v
          cases hg : mapGet m v with
          | none =>
            rw [hg] at h1
            rw [slotListM_one_none h1, slotListM_one_none hg]; rfl
          | some t =>
            rw [hg] at h1
            cases t with
            | leaf l =>
              rw [slotListM_one_leaf h1, slotListM_one_leaf hg]
            | node m2 =>
              rw [slotListM_one_node h1, slotListM_one_node hg]; rfl
    | cons k2 ks =>
      intro m p hp
      cases p with
      | nil => simp at hp
      | cons v ps =>
        cases ps with
        | nil => simp at hp
        | cons v2 ps2 =>
          show slotListM (v :: v2 :: ps2) (m.map (fun e => (e.1,
            match e.2 with
            | .node m2 => MTree.node (mapItemsM g (k2 :: ks) m2)
            | .leaf l => MTree.leaf l))) = _
          have h1 := mapGet_map_tree (fun t =>
            match t with
            | .node m2 => MTree.node (mapItemsM g (k2 :: ks) m2)
            | .leaf l => MTree.leaf l) m v
          cases hg : mapGet m v with
          | none =>
            rw [hg] at h1
            rw [slotListM_cons2_none _ _ h1, slotListM_cons2_none _ _ hg]; rfl
          | some t =>
            rw [hg] at h1
            cases t with
            | leaf l =>
              rw [slotListM_cons2_leaf _ _ h1, slotListM_cons2_leaf _ _ hg]; rfl
            | node m2 =>
              rw [slotListM_cons2_node v2 ps2 h1, slotListM_cons2_node v2 ps2 hg]
              exact ih m2 (v2 :: ps2) (by simpa using hp)

/-! ## Claim theorems -/

/-- C1 (counterexample): Border.merge does not follow the claimed
directionality.  borderWidthOne has a defined width (1), yet merging
borderWidthTwo on top of it yields the argument's width (2): the calling
object's defined field loses. -/
theorem border_merge_caller_loses :
    borderWidthOne.width = some 1 ∧ borderWidthTwo.width = some 2 ∧
    (borderWidthOne.merge (some borderWidthTwo)).width = some 2 :=
  ⟨rfl, rfl, rfl⟩

/-- C1 (amended): the actual directionality of the merge operations is the
opposite of the claim — the ARGUMENT (master) wins on every field that is
defined in it, and the calling object's fields only fill what is undefined in
the argument.  Stated for every field of Border.merge (for width under the
constructor's truthiness normalization, which holds of every constructed
Border), for representative scalar fields of TextSettings.merge, and for the
overlay-merged fields of FeatureSettings.merge. -/
theorem merge_master_wins (a b : Border) (t1 t2 : TextSettings) (s1 s2 : FeatureSettings)
    (ha : jsTruthyInt a.width = a.width) (hb : jsTruthyInt b.width = b.width) :
    ((a.merge (some b)).color = jsOverlay a.color b.color ∧
     (a.merge (some b)).width = jsOverlay a.width b.width ∧
     (a.merge (some b)).lineDash1 = jsOverlay a.lineDash1 b.lineDash1 ∧
     (a.merge (some b)).lineDash2 = jsOverlay a.lineDash2 b.lineDash2 ∧
     (a.merge (some b)).lineDash3 = jsOverlay a.lineDash3 b.lineDash3 ∧
     (a.merge (some b)).lineDash4 = jsOverlay a.lineDash4 b.lineDash4 ∧
     (a.merge (some b)).lineDashOffset = jsOverlay a.lineDashOffset b.lineDashOffset ∧
     (a.merge (some b)).lineCap = jsOverlay a.lineCap b.lineCap) ∧
    ((t1.merge (some t2)).textFillColor = jsOverlay t1.textFillColor t2.textFillColor ∧
     (t1.merge (some t2)).textFontStyle = jsOverlay t1.textFontStyle t2.textFontStyle ∧
     (t1.merge (some t2)).textFontSize = jsOverlay t1.textFontSize t2.textFontSize ∧
     (t1.merge (some t2)).textAlign = jsOverlay t1.textAlign t2.textAlign) ∧
    ((s1.merge s2).levelName = jsOverlay s1.levelName s2.levelName ∧
     (s1.merge s2).levelValue = jsOverlay s1.levelValue s2.levelValue ∧
     (s1.merge s2).showFeature = jsOverlay s1.showFeature s2.showFeature ∧
     (s1.merge s2).showText = jsOverlay s1.showText s2.showText) := by
  refine ⟨⟨rfl, ?_, rfl, rfl, rfl, rfl, rfl, rfl⟩, ⟨rfl, rfl, rfl, rfl⟩, ?_⟩
  · show jsTruthyInt (jsOverlay a.width b.width) = jsOverlay a.width b.width
    cases hbw : b.width with
    | some w =>
      rw [hbw] at hb
      simpa [jsOverlay] using hb
    | none =>
      simpa [jsOverlay] using ha
  · rcases hv : s1.variant with pf | lf | pg <;>
      simp [FeatureSettings.merge, FeatureSettings.mergeBase, hv]

theorem merge_master_wins_witness :
    jsTruthyInt borderWidthOne.width = borderWidthOne.width ∧
    jsTruthyInt borderWidthTwo.width = borderWidthTwo.width ∧
    (borderWidthOne.merge (some borderWidthTwo)).width =
      jsOverlay borderWidthOne.width borderWidthTwo.width ∧
    (pointStandardSettings.merge witnessAttributeSetting).showText =
      jsOverlay pointStandardSettings.showText witnessAttributeSetting.showText := by
  have h := merge_master_wins borderWidthOne borderWidthTwo TextSettings.getStandard
    TextSettings.getStandard pointStandardSettings witnessAttributeSetting
    (by decide) (by decide)
  exact ⟨by decide, by decide, h.1.2.1, h.2.2.2.2.2⟩

/-- C6 (amended): getAllItems returns the empty list, without raising an
error, for every filter array whose length differs from the number of primary
keys; the companion counterexample shows getAllKeys lacks the guard. -/
theorem getAllItems_wrong_arity_empty {α : Type} (t : IAMMapTable α)
    (filters : List KeyFilter) (h : filters.length ≠ t.primaryKeys.length) :
    t.getAllItems filters = [] := by
  unfold IAMMapTable.getAllItems
  rw [if_pos h]

theorem getAllItems_wrong_arity_empty_witness :
    [(none : KeyFilter)].length ≠ storeWithFeatureA.features.primaryKeys.length ∧
    storeWithFeatureA.features.getAllItems [none] = [] :=
  ⟨by decide, getAllItems_wrong_arity_empty storeWithFeatureA.features [none] (by decide)⟩

/-- C6 (counterexample): getAllKeys performs no arity check.  On a populated
features table (two primary keys) a one-filter query returns the keys of the
first level — a non-empty result — instead of the empty result the claim
asserts for both query operations. -/
theorem getAllKeys_wrong_arity_not_empty :
    [(none : KeyFilter)].length ≠ storeWithFeatureA.features.primaryKeys.length ∧
    storeWithFeatureA.features.getAllKeys [none] = some [JSKey.num 1] :=
  ⟨by decide, by decide⟩

/-- C7: on a CSV payload whose header is shorter than the adapter's template,
the constructor of the attributes CSV data source terminates with an escaping
exception (modelled as the Except.error branch reached through parseCsv
returning null and the constructor dereferencing it), and the process result
left behind has status WARN — not the ERROR escalation the claim asserts —
with the replaced summary text and the header-check message as a detail. -/
theorem csv_short_header_result :
    mkFeatureAttributesCSVDataSource csvFailingPayload csvInitialProcessResult =
      Except.error
        { status := WARN,
          text := "File has no valid format. No data was loaded. with warnings",
          details := ["File must have at least 10 columns in csv format"] } ∧
    WARN ≠ ERROR :=
  ⟨by rfl, by decide⟩

/-- C8: exporting with addSettings produces the pseudo-feature with the
reserved id at the bounding-box minimum corner, but its _iam_FeatureSettings
property is the EMPTY list when no map-level settings are supplied (the store
holds 3 settings); the full list is exported only when map-level settings are
supplied. -/
theorem toGeoJSON_settings_payload :
    storeWithFeatureA.getAllSettings.length = 3 ∧
    ((storeWithFeatureA.toGeoJSON false false true none).features.getLast?.map
      (fun g => (g.id, g.coordinates, objGet g.properties "_iam_FeatureSettings"))) =
      some ("_iam_Settings", Coords.pt 5 6, some (PropVal.settingsList [])) ∧
    ((storeWithFeatureA.toGeoJSON false false true (some "MS")).features.getLast?.map
      (fun g => objGet g.properties "_iam_FeatureSettings")) =
      some (some (PropVal.settingsList storeWithFeatureA.getAllSettings)) :=
  ⟨by decide, by decide, by decide⟩

/-- C10: when the attributes table is empty both year queries return
undefined — the sorted year list is empty and indexing it yields undefined;
the current-year expression of the source's empty branch is discarded. -/
theorem attributes_year_queries_empty (s : IAMStorage)
    (h : s.featureAttributes.getAllItems [none, none, none, none] = []) :
    s.getAttributesMinimumYear = none ∧ s.getAttributesMaximumYear = none := by
  refine ⟨?_, ?_⟩ <;>
    simp [IAMStorage.getAttributesMinimumYear, IAMStorage.getAttributesMaximumYear, h, sortJS]

theorem attributes_year_queries_empty_witness :
    initStorage.featureAttributes.getAllItems [none, none, none, none] = [] ∧
    initStorage.getAttributesMinimumYear = none ∧
    initStorage.getAttributesMaximumYear = none :=
  ⟨rfl, (attributes_year_queries_empty initStorage rfl).1,
    (attributes_year_queries_empty initStorage rfl).2⟩

/-- The inserted record is a member of the slot list _addItem rewrote. -/
theorem mem_replaceOrAppend_self {α : Type} (eqb : α → α → Bool) (item : α) (l : List α) :
    item ∈ replaceOrAppend eqb item l := by
  unfold replaceOrAppend
  cases hany : l.any (fun stored => eqb stored item) with
  | false => simp
  | true =>
    rw [List.any_eq_true] at hany
    obtain ⟨x, hx, hb⟩ := hany
    simp only [if_true]
    exact List.mem_map.mpr ⟨x, hx, by simp [hb]⟩

/-- A stored record that is not equal to the inserted one survives the
terminal-level overwrite step unchanged. -/
theorem mem_replaceOrAppend_of_ne {α : Type} (eqb : α → α → Bool) (item x : α) (l : List α)
    (hx : x ∈ l) (hne : eqb x item = false) :
    x ∈ replaceOrAppend eqb item l := by
  unfold replaceOrAppend
  cases hany : l.any (fun stored => eqb stored item) with
  | false => simp [hx]
  | true =>
    simp only [if_true]
    exact List.mem_map.mpr ⟨x, hx, by simp [hne]⟩

/-- C4: two FeatureAttribute records sharing (featureType, featureId,
propertyName) but differing in the property value or in any of the six date
fields are not .equals() in either direction, and inserting both into a
well-formed attributes table retains both: each is present at its terminal
slot after the two addItem calls. -/
theorem attribute_inequality_retains_both (t : IAMMapTable FeatureAttribute)
    (a b : FeatureAttribute)
    (hkeys : t.primaryKeys = featureAttributesKeys)
    (hwf : wfm (fun _ => true) featureAttributesKeys t.mapTable = true)
    (hft : a.featureType = b.featureType) (hid : a.featureId = b.featureId)
    (hnm : a.propertyName = b.propertyName)
    (hdiff : a.propertyValue ≠ b.propertyValue ∨ a.fromYear ≠ b.fromYear ∨
      a.fromMonth ≠ b.fromMonth ∨ a.fromDay ≠ b.fromDay ∨ a.toYear ≠ b.toYear ∨
      a.toMonth ≠ b.toMonth ∨ a.toDay ≠ b.toDay) :
    featureAttributeEquals a b = false ∧ featureAttributeEquals b a = false ∧
    a ∈ slotListM (keyPath featureAttributesKeys a)
      (((t.addItem featureAttributeEquals a).addItem featureAttributeEquals b).mapTable) ∧
    b ∈ slotListM (keyPath featureAttributesKeys b)
      (((t.addItem featureAttributeEquals a).addItem featureAttributeEquals b).mapTable) := by
  have hfalse : ∀ (x y : FeatureAttribute),
      (x.propertyValue ≠ y.propertyValue ∨ x.fromYear ≠ y.fromYear ∨
       x.fromMonth ≠ y.fromMonth ∨ x.fromDay ≠ y.fromDay ∨ x.toYear ≠ y.toYear ∨
       x.toMonth ≠ y.toMonth ∨ x.toDay ≠ y.toDay) →
      featureAttributeEquals x y = false := by
    intro x y h
    rcases h with h | h | h | h | h | h | h <;> simp [featureAttributeEquals, h]
  have hab : featureAttributeEquals a b = false := hfalse a b hdiff
  have hba : featureAttributeEquals b a = false := by
    refine hfalse b a ?_
    rcases hdiff with h | h | h | h | h | h | h
    · exact Or.inl h.symm
    · exact Or.inr (Or.inl h.symm)
    · exact Or.inr (Or.inr (Or.inl h.symm))
    · exact Or.inr (Or.inr (Or.inr (Or.inl h.symm)))
    · exact Or.inr (Or.inr (Or.inr (Or.inr (Or.inl h.symm))))
    · exact Or.inr (Or.inr (Or.inr (Or.inr (Or.inr (Or.inl h.symm)))))
    · exact Or.inr (Or.inr (Or.inr (Or.inr (Or.inr (Or.inr h.symm)))))
  have hm1 : (t.addItem featureAttributeEquals a).mapTable =
      addItemM featureAttributeEquals a featureAttributesKeys t.mapTable := by
    simp [IAMMapTable.addItem, hkeys]
  have hpk1 : (t.addItem featureAttributeEquals a).primaryKeys = featureAttributesKeys := by
    simpa [IAMMapTable.addItem] using hkeys
  have hm2 : ((t.addItem featureAttributeEquals a).addItem featureAttributeEquals b).mapTable =
      addItemM featureAttributeEquals b featureAttributesKeys
        (addItemM featureAttributeEquals a featureAttributesKeys t.mapTable) := by
    simp [IAMMapTable.addItem, hkeys]
  have hwf1 : wfm (fun _ => true) featureAttributesKeys
      (addItemM featureAttributeEquals a featureAttributesKeys t.mapTable) = true :=
    wfm_addItemM featureAttributeEquals a featureAttributesKeys (fun _ => true) rfl t.mapTable hwf
  have hlen : ∀ x : FeatureAttribute,
      (keyPath featureAttributesKeys x).length = featureAttributesKeys.length := by
    intro x; simp [keyPath]
  have hslot1 : slotListM (keyPath featureAttributesKeys a)
      (addItemM featureAttributeEquals a featureAttributesKeys t.mapTable) =
      replaceOrAppend featureAttributeEquals a
        (slotListM (keyPath featureAttributesKeys a) t.mapTable) := by
    rw [slotListM_addItemM featureAttributeEquals a featureAttributesKeys (fun _ => true)
      t.mapTable _ hwf (hlen a), if_pos rfl]
  refine ⟨hab, hba, ?_, ?_⟩
  · rw [hm2, slotListM_addItemM featureAttributeEquals b featureAttributesKeys (fun _ => true)
      _ _ hwf1 (hlen a)]
    by_cases hp : keyPath featureAttributesKeys a = keyPath featureAttributesKeys b
    · rw [if_pos hp, hslot1]
      exact mem_replaceOrAppend_of_ne featureAttributeEquals b a _
        (mem_replaceOrAppend_self featureAttributeEquals a _) hab
    · rw [if_neg hp, hslot1]
      exact mem_replaceOrAppend_self featureAttributeEquals a _
  · rw [hm2, slotListM_addItemM featureAttributeEquals b featureAttributesKeys (fun _ => true)
      _ _ hwf1 (hlen b), if_pos rfl]
    exact mem_replaceOrAppend_self featureAttributeEquals b _

theorem attribute_inequality_retains_both_witness :
    witnessAttA.propertyValue ≠ witnessAttB.propertyValue ∧
    featureAttributeEquals witnessAttA witnessAttB = false ∧
    witnessAttB ∈ slotListM (keyPath featureAttributesKeys witnessAttB)
      ((((emptyTable featureAttributesKeys).addItem featureAttributeEquals
          witnessAttA).addItem featureAttributeEquals witnessAttB).mapTable) := by
  have h := attribute_inequality_retains_both (emptyTable featureAttributesKeys)
    witnessAttA witnessAttB rfl (by decide) rfl rfl rfl (Or.inl (by decide))
  exact ⟨by decide, h.1, h.2.2.2⟩

/-- Inverting the optStrKey key extraction. -/
theorem optStrKey_eq_str {o : Option String} {s : String} :
    optStrKey o = JSKey.str s ↔ o = some s := by
  cases o <;> simp [optStrKey]

/-- Inverting the optStrKey key extraction, from the key side. -/
theorem str_eq_optStrKey {o : Option String} {s : String} :
    JSKey.str s = optStrKey o ↔ o = some s := by
  cases o <;> simp [optStrKey, eq_comm]

/-- The seeded settings table satisfies the settings-table invariant. -/
theorem settingsInv_init :
    settingsInv (initStandardSettings (emptyTable featureSettingsKeys)) := by
  refine ⟨rfl, by decide, ?_⟩
  intro ft hft
  rcases hft with h | h | h <;> subst h
  · exact ⟨pointStandardSettings, by decide, rfl, rfl, rfl, rfl⟩
  · exact ⟨lineStringStandardSettings, by decide, rfl, rfl, rfl, rfl⟩
  · exact ⟨polygonStandardSettings, by decide, rfl, rfl, rfl, rfl⟩

/-- addItem with the FeatureSettings equality preserves the settings-table
invariant: an insert away from a Standard slot leaves the slot alone, and an
insert whose key path is a Standard slot replaces the slot's single record in
place (the new record's identity fields spell the slot, so the stored record
.equals() it). -/
theorem settingsInv_addItem (t : IAMMapTable FeatureSettings) (st : FeatureSettings)
    (h : settingsInv t) : settingsInv (t.addItem featureSettingsEquals st) := by
  obtain ⟨hpk, hwf, hslots⟩ := h
  have hm : (t.addItem featureSettingsEquals st).mapTable =
      addItemM featureSettingsEquals st featureSettingsKeys t.mapTable := by
    simp [IAMMapTable.addItem, hpk]
  refine ⟨by simpa [IAMMapTable.addItem] using hpk, ?_, ?_⟩
  · rw [hm]
    exact wfm_addItemM featureSettingsEquals st featureSettingsKeys (fun _ => true) rfl
      t.mapTable hwf
  · intro ft hft
    obtain ⟨old, hslot, hft1, hlt1, hln1, hlv1⟩ := hslots ft hft
    unfold stdSlotOK
    rw [hm, slotListM_addItemM featureSettingsEquals st featureSettingsKeys (fun _ => true)
      t.mapTable _ hwf rfl]
    have hk : keyPath featureSettingsKeys st =
        [JSKey.num st.featureType, JSKey.num st.levelType,
         optStrKey st.levelName, optStrKey st.levelValue] := by
      simp [keyPath, featureSettingsKeys]
    by_cases hp : stdPath ft = keyPath featureSettingsKeys st
    · have hp2 := hp
      rw [hk] at hp2
      simp only [stdPath, List.cons.injEq, JSKey.num.injEq, str_eq_optStrKey,
        and_true] at hp2
      obtain ⟨e1, e2, e3, e4⟩ := hp2
      have heq : featureSettingsEquals old st = true := by
        simp [featureSettingsEquals, hft1, hlt1, hln1, hlv1, e1, e2, e3, e4]
      rw [if_pos hp, hslot]
      refine ⟨st, ?_, e1.symm, e2.symm, e3, e4⟩
      simp [replaceOrAppend, heq]
    · rw [if_neg hp]
      exact ⟨old, hslot, hft1, hlt1, hln1, hlv1⟩

/-- The invariant is preserved by a whole settings load (fold of addItem). -/
theorem settingsInv_foldAddItem :
    ∀ (ds : List FeatureSettings) (t : IAMMapTable FeatureSettings), settingsInv t →
    settingsInv (ds.foldl (fun t2 x => t2.addItem featureSettingsEquals x) t) := by
  intro ds
  induction ds with
  | nil => intro t h; exact h
  | cons x rest ih =>
    intro t h
    exact ih _ (settingsInv_addItem t x h)

/-- The feature-table fold of loadFeatures never touches the settings table. -/
theorem foldl_features_featureSettings :
    ∀ (ds : List ExtendedFeature) (s : IAMStorage),
    ((ds.foldl (fun st f => { st with features := st.features.addItem featureEquals f }) s)).featureSettings =
      s.featureSettings := by
  intro ds
  induction ds with
  | nil => intro s; rfl
  | cons f rest ih => intro s; exact ih _

/-- The settings component of loadFeatures: intact on OVERWRITE, reset to the
seeded store's on DROPTABLE. -/
theorem loadFeatures_featureSettings (s : IAMStorage) (ds : List ExtendedFeature)
    (mode : Int) (pr : ProcessResult) :
    ((s.loadFeatures ds mode pr).1).featureSettings =
      if mode == DROPTABLE then initStorage.featureSettings else s.featureSettings := by
  show ((ds.foldl (fun st f => { st with features := st.features.addItem featureEquals f })
    (if mode == DROPTABLE then initStorage else s))).featureSettings = _
  rw [foldl_features_featureSettings]
  by_cases h : (mode == DROPTABLE) = true <;> simp [h]

/-- The property-load loop never touches the settings table. -/
theorem loadPropsLoop_featureSettings :
    ∀ (ds : List FeatureProperty) (s : IAMStorage) (pr : ProcessResult) (c : Nat),
    ((loadPropsLoop s pr c ds).1).featureSettings = s.featureSettings := by
  intro ds
  induction ds with
  | nil => intro s pr c; rfl
  | cons r rest ih =>
    intro s pr c
    unfold loadPropsLoop
    cases hg : s.getFeature r.featureType r.featureId with
    | none => exact ih s _ c
    | some f => exact ih _ pr (c + 1)

theorem loadFeaturesProperties_featureSettings (s : IAMStorage) (ds : List FeatureProperty)
    (mode : Int) (pr : ProcessResult) :
    ((s.loadFeaturesProperties ds mode pr).1).featureSettings = s.featureSettings := by
  show ((loadPropsLoop (propsDropInit s mode) pr 0 ds).1).featureSettings = _
  rw [loadPropsLoop_featureSettings]
  unfold propsDropInit
  split <;> rfl

/-- The attribute-load loop never touches the settings table. -/
theorem loadAttsLoop_featureSettings :
    ∀ (ds : List FeatureAttribute) (s : IAMStorage) (pr : ProcessResult) (c : Nat),
    ((loadAttsLoop s pr c ds).1).featureSettings = s.featureSettings := by
  intro ds
  induction ds with
  | nil => intro s pr c; rfl
  | cons r rest ih =>
    intro s pr c
    unfold loadAttsLoop
    cases hg : s.getFeature r.featureType r.featureId with
    | none => exact ih s _ c
    | some f => exact ih _ pr (c + 1)

theorem loadFeaturesAttributes_featureSettings (s : IAMStorage) (ds : List FeatureAttribute)
    (mode : Int) (pr : ProcessResult) :
    ((s.loadFeaturesAttributes ds mode pr).1).featureSettings = s.featureSettings := by
  show ((loadAttsLoop (attsDropInit s mode) pr 0 ds).1).featureSettings = _
  rw [loadAttsLoop_featureSettings]
  unfold attsDropInit
  split <;> rfl

/-- The settings component of the addSetting fold of loadSettings. -/
theorem foldl_addSetting_featureSettings :
    ∀ (ds : List FeatureSettings) (s : IAMStorage),
    ((ds.foldl (fun st x => st.addSetting x) s)).featureSettings =
      ds.foldl (fun t2 x => t2.addItem featureSettingsEquals x) s.featureSettings := by
  intro ds
  induction ds with
  | nil => intro s; rfl
  | cons x rest ih => intro s; exact ih _

/-- Every store operation preserves the settings-table invariant. -/
theorem settingsInv_applyStoreOp (s : IAMStorage) (op : StoreOp)
    (h : settingsInv s.featureSettings) : settingsInv (applyStoreOp s op).featureSettings := by
  cases op with
  | addSetting st => exact settingsInv_addItem s.featureSettings st h
  | loadFeatures ds mode =>
    show settingsInv ((s.loadFeatures ds mode emptyProcessResult).1).featureSettings
    rw [loadFeatures_featureSettings]
    by_cases hm : (mode == DROPTABLE) = true
    · rw [if_pos hm]; exact settingsInv_init
    · rw [if_neg hm]; exact h
  | loadProps ds mode =>
    show settingsInv ((s.loadFeaturesProperties ds mode emptyProcessResult).1).featureSettings
    rw [loadFeaturesProperties_featureSettings]; exact h
  | loadAtts ds mode =>
    show settingsInv ((s.loadFeaturesAttributes ds mode emptyProcessResult).1).featureSettings
    rw [loadFeaturesAttributes_featureSettings]; exact h
  | loadSettings ds mode =>
    show settingsInv ((s.loadSettings ds mode emptyProcessResult).1).featureSettings
    show settingsInv ((ds.foldl (fun st x => st.addSetting x)
      (if mode == DROPTABLE then
        { s with featureSettings := initStandardSettings (emptyTable featureSettingsKeys) }
      else s))).featureSettings
    rw [foldl_addSetting_featureSettings]
    refine settingsInv_foldAddItem ds _ ?_
    by_cases hm : (mode == DROPTABLE) = true
    · rw [if_pos hm]; exact settingsInv_init
    · rw [if_neg hm]; exact h

/-- Every reachable store satisfies the settings-table invariant. -/
theorem settingsInv_runStoreOps (ops : List StoreOp) :
    settingsInv (runStoreOps ops).featureSettings := by
  suffices h : ∀ (l : List StoreOp) (s : IAMStorage), settingsInv s.featureSettings →
      settingsInv (l.foldl applyStoreOp s).featureSettings by
    exact h ops initStorage settingsInv_init
  intro l
  induction l with
  | nil => intro s hs; exact hs
  | cons op rest ih => intro s hs; exact ih _ (settingsInv_applyStoreOp s op hs)

/-- C9 (amended): in every reachable store, for each of the three feature
types there is exactly one settings record carrying the full seeded Standard
identity (levelType Standard, levelName "Standard", levelValue ""): it is
seeded at initialization, re-seeded on DROPTABLE, and only ever overwritten in
place.  The companion counterexample shows the claim as stated — uniqueness
per (featureType, levelType) alone — is refutable through addSetting. -/
theorem standard_settings_unique (ops : List StoreOp) (ft : Int)
    (hft : ft = POINT ∨ ft = LINESTRING ∨ ft = POLYGON) :
    (((runStoreOps ops).getAllSettings).filter (fun st =>
        st.featureType == ft && st.levelType == LEVEL_STANDARD &&
        st.levelName == some "Standard" && st.levelValue == some "")).length = 1 := by
  obtain ⟨hpk, hwf, hslots⟩ := settingsInv_runStoreOps ops
  obtain ⟨st, hslot, h1, h2, h3, h4⟩ := hslots ft hft
  have hscan : (runStoreOps ops).getAllSettings =
      getAllItemsRec (List.replicate featureSettingsKeys.length (none : KeyFilter))
        (runStoreOps ops).featureSettings.mapTable := by
    unfold IAMStorage.getAllSettings IAMMapTable.getAllItems
    rw [hpk, if_neg (by simp [featureSettingsKeys])]
    rfl
  have hfilter := getAllItemsRec_eq_filter featureSettingsKeys
    ((stdPath ft).map (fun v => some (fun k2 => k2 == v))) (fun _ => true)
    (runStoreOps ops).featureSettings.mapTable hwf (by simp [stdPath, featureSettingsKeys])
  have hexact := getAllItemsRec_exact_eq_slot featureSettingsKeys (fun _ => true)
    (runStoreOps ops).featureSettings.mapTable (stdPath ft) hwf
    (by simp [stdPath, featureSettingsKeys])
  have hpred : (fun x : FeatureSettings =>
      x.featureType == ft && x.levelType == LEVEL_STANDARD &&
      x.levelName == some "Standard" && x.levelValue == some "") =
      (fun x => passesFilters ((stdPath ft).map (fun v => some (fun k2 => k2 == v)))
        (keyPath featureSettingsKeys x)) := by
    funext x
    rw [Bool.eq_iff_iff]
    simp [stdPath, keyPath, featureSettingsKeys, passesFilters, passesKey, optStrKey_eq_str,
      and_assoc]
  rw [hscan, hpred, ← hfilter, hexact, hslot]
  rfl

theorem standard_settings_unique_witness :
    (POINT = POINT ∨ POINT = LINESTRING ∨ POINT = POLYGON) ∧
    (((runStoreOps [StoreOp.addSetting rogueStandardSettings]).getAllSettings).filter
      (fun st => st.featureType == POINT && st.levelType == LEVEL_STANDARD &&
        st.levelName == some "Standard" && st.levelValue == some "")).length = 1 :=
  ⟨Or.inl rfl,
    standard_settings_unique [StoreOp.addSetting rogueStandardSettings] POINT (Or.inl rfl)⟩

/-- C9 (counterexample): a reachable store (one addSetting call on a fresh
store) holds TWO Standard-levelType settings for the Point feature type — the
seeded one and a second with a different levelName — refuting "exactly one
Standard-level setting per feature type". -/
theorem standard_level_duplicate :
    (((runStoreOps [StoreOp.addSetting rogueStandardSettings]).getAllSettings).filter
      (fun st => st.featureType == POINT && st.levelType == LEVEL_STANDARD)).length = 2 := by
  decide

/-- Rewriting the head of a slot list does not change whether it has one. -/
theorem head_isSome_headUpd {α : Type} (g : α → α) (l : List α) :
    (headUpd g l).head?.isSome = l.head?.isSome := by
  cases l <;> rfl

/-- Inserting a property record never changes which features are present. -/
theorem getFeature_insertProperty_isSome (s : IAMStorage) (r : FeatureProperty)
    (t : Int) (i : String) :
    ((s.insertProperty r).getFeature t i).isSome = (s.getFeature t i).isSome := by
  show (getItemM [JSKey.num t, JSKey.str i]
      (updateHeadM [JSKey.num r.featureType, JSKey.str r.featureId]
        (fun f => f.addProperty r.propertyName (PropVal.str r.propertyValue))
        s.features.mapTable)).isSome =
    (getItemM [JSKey.num t, JSKey.str i] s.features.mapTable).isSome
  rw [getItemM_eq_head_slot, getItemM_eq_head_slot, slotListM_updateHeadM]
  by_cases h : [JSKey.num t, JSKey.str i] = [JSKey.num r.featureType, JSKey.str r.featureId]
  · rw [if_pos h]; exact head_isSome_headUpd _ _
  · rw [if_neg h]

/-- Inserting an attribute record never changes which features are present. -/
theorem getFeature_insertAttribute_isSome (s : IAMStorage) (r : FeatureAttribute)
    (t : Int) (i : String) :
    ((s.insertAttribute r).getFeature t i).isSome = (s.getFeature t i).isSome := by
  show (getItemM [JSKey.num t, JSKey.str i]
      (updateHeadM [JSKey.num r.featureType, JSKey.str r.featureId]
        (fun f => f.addAttribute r) s.features.mapTable)).isSome =
    (getItemM [JSKey.num t, JSKey.str i] s.features.mapTable).isSome
  rw [getItemM_eq_head_slot, getItemM_eq_head_slot, slotListM_updateHeadM]
  by_cases h : [JSKey.num t, JSKey.str i] = [JSKey.num r.featureType, JSKey.str r.featureId]
  · rw [if_pos h]; exact head_isSome_headUpd _ _
  · rw [if_neg h]

/-- The property-load loop, solved: the store is folded over exactly the
records whose feature is present, the process result collects exactly one WARN
detail per absent-feature record, and the counter counts the inserted
records. -/
theorem loadPropsLoop_spec :
    ∀ (ds : List FeatureProperty) (s : IAMStorage) (pr : ProcessResult) (c : Nat),
    loadPropsLoop s pr c ds =
      ((ds.filter (fun r => (s.getFeature r.featureType r.featureId).isSome)).foldl
         (fun st r => st.insertProperty r) s,
       (ds.filter (fun r => !(s.getFeature r.featureType r.featureId).isSome)).foldl
         (fun p r => p.addDetail WARN (warnNoFeatureProp r)) pr,
       c + (ds.filter (fun r => (s.getFeature r.featureType r.featureId).isSome)).length) := by
  intro ds
  induction ds with
  | nil => intro s pr c; simp [loadPropsLoop]
  | cons r rest ih =>
    intro s pr c
    unfold loadPropsLoop
    cases hg : s.getFeature r.featureType r.featureId with
    | none =>
      show loadPropsLoop s (pr.addDetail WARN (warnNoFeatureProp r)) c rest = _
      rw [ih]
      simp [List.filter_cons, hg]
    | some f =>
      show loadPropsLoop (s.insertProperty r) pr (c + 1) rest = _
      rw [ih]
      have hfix : ∀ r2 : FeatureProperty,
          ((s.insertProperty r).getFeature r2.featureType r2.featureId).isSome =
          (s.getFeature r2.featureType r2.featureId).isSome := fun r2 =>
        getFeature_insertProperty_isSome s r r2.featureType r2.featureId
      simp only [hfix]
      simp [List.filter_cons, hg]
      omega

/-- The attribute-load loop, solved the same way. -/
theorem loadAttsLoop_spec :
    ∀ (ds : List FeatureAttribute) (s : IAMStorage) (pr : ProcessResult) (c : Nat),
    loadAttsLoop s pr c ds =
      ((ds.filter (fun r => (s.getFeature r.featureType r.featureId).isSome)).foldl
         (fun st r => st.insertAttribute r) s,
       (ds.filter (fun r => !(s.getFeature r.featureType r.featureId).isSome)).foldl
         (fun p r => p.addDetail WARN (warnNoFeatureAtt r)) pr,
       c + (ds.filter (fun r => (s.getFeature r.featureType r.featureId).isSome)).length) := by
  intro ds
  induction ds with
  | nil => intro s pr c; simp [loadAttsLoop]
  | cons r rest ih =>
    intro s pr c
    unfold loadAttsLoop
    cases hg : s.getFeature r.featureType r.featureId with
    | none =>
      show loadAttsLoop s (pr.addDetail WARN (warnNoFeatureAtt r)) c rest = _
      rw [ih]
      simp [List.filter_cons, hg]
    | some f =>
      show loadAttsLoop (s.insertAttribute r) pr (c + 1) rest = _
      rw [ih]
      have hfix : ∀ r2 : FeatureAttribute,
          ((s.insertAttribute r).getFeature r2.featureType r2.featureId).isSome =
          (s.getFeature r2.featureType r2.featureId).isSome := fun r2 =>
        getFeature_insertAttribute_isSome s r r2.featureType r2.featureId
      simp only [hfix]
      simp [List.filter_cons, hg]
      omega

/-- C5: referential integrity of both bulk loaders.  After the mode preamble,
the store is updated by exactly the datasource records whose (featureType,
featureId) is present in the features table — absent-feature records change
nothing — the process result collects the initial details, then exactly one
WARN detail per absent-feature record in datasource order, then the final INFO
detail whose counter counts only the inserted records; processing never
aborts. -/
theorem load_referential_integrity (s : IAMStorage) (dsp : List FeatureProperty)
    (dsa : List FeatureAttribute) (mode : Int) (pr : ProcessResult) :
    (s.loadFeaturesProperties dsp mode pr =
      ((dsp.filter (fun r =>
          ((propsDropInit s mode).getFeature r.featureType r.featureId).isSome)).foldl
         (fun st r => st.insertProperty r) (propsDropInit s mode),
       ((dsp.filter (fun r =>
          !((propsDropInit s mode).getFeature r.featureType r.featureId).isSome)).foldl
         (fun p r => p.addDetail WARN (warnNoFeatureProp r)) pr).addDetail INFO
         (toString (dsp.filter (fun r =>
            ((propsDropInit s mode).getFeature r.featureType r.featureId).isSome)).length
           ++ " feature properties successfully loaded into database."))) ∧
    (s.loadFeaturesAttributes dsa mode pr =
      ((dsa.filter (fun r =>
          ((attsDropInit s mode).getFeature r.featureType r.featureId).isSome)).foldl
         (fun st r => st.insertAttribute r) (attsDropInit s mode),
       ((dsa.filter (fun r =>
          !((attsDropInit s mode).getFeature r.featureType r.featureId).isSome)).foldl
         (fun p r => p.addDetail WARN (warnNoFeatureAtt r)) pr).addDetail INFO
         (toString (dsa.filter (fun r =>
            ((attsDropInit s mode).getFeature r.featureType r.featureId).isSome)).length
           ++ " feature attributes successfully loaded into database."))) := by
  constructor
  · show ((loadPropsLoop (propsDropInit s mode) pr 0 dsp).1,
      (loadPropsLoop (propsDropInit s mode) pr 0 dsp).2.1.addDetail INFO
        (toString (loadPropsLoop (propsDropInit s mode) pr 0 dsp).2.2 ++
          " feature properties successfully loaded into database.")) = _
    rw [loadPropsLoop_spec]
    simp
  · show ((loadAttsLoop (attsDropInit s mode) pr 0 dsa).1,
      (loadAttsLoop (attsDropInit s mode) pr 0 dsa).2.1.addDetail INFO
        (toString (loadAttsLoop (attsDropInit s mode) pr 0 dsa).2.2 ++
          " feature attributes successfully loaded into database.")) = _
    rw [loadAttsLoop_spec]
    simp

/-- FeatureProperty.equals is symmetric. -/
theorem featurePropertyEquals_symm (x y : FeatureProperty) :
    featurePropertyEquals x y = featurePropertyEquals y x := by
  rw [Bool.eq_iff_iff]
  simp only [featurePropertyEquals, Bool.and_eq_true, beq_iff_eq]
  constructor
  · rintro ⟨⟨h1, h2⟩, h3⟩; exact ⟨⟨h1.symm, h2.symm⟩, h3.symm⟩
  · rintro ⟨⟨h1, h2⟩, h3⟩; exact ⟨⟨h1.symm, h2.symm⟩, h3.symm⟩

/-- FeatureProperty.equals is transitive. -/
theorem featurePropertyEquals_trans (x y z : FeatureProperty)
    (h1 : featurePropertyEquals x y = true) (h2 : featurePropertyEquals y z = true) :
    featurePropertyEquals x z = true := by
  simp only [featurePropertyEquals, Bool.and_eq_true, beq_iff_eq] at h1 h2 ⊢
  exact ⟨⟨h1.1.1.trans h2.1.1, h1.1.2.trans h2.1.2⟩, h1.2.trans h2.2⟩

/-- The terminal-level overwrite step keeps slot lists free of mutually equal
records (for a symmetric and transitive record equality). -/
theorem pairwise_replaceOrAppend {α : Type} (eqb : α → α → Bool)
    (hsym : ∀ x y, eqb x y = eqb y x)
    (htrans : ∀ x y z, eqb x y = true → eqb y z = true → eqb x z = true)
    (item : α) (l : List α)
    (hp : l.Pairwise (fun x y => eqb x y = false)) :
    (replaceOrAppend eqb item l).Pairwise (fun x y => eqb x y = false) := by
  unfold replaceOrAppend
  cases hany : l.any (fun stored => eqb stored item) with
  | false =>
    simp only [Bool.false_eq_true, if_false]
    rw [List.any_eq_false] at hany
    refine List.pairwise_append.mpr ⟨hp, List.pairwise_singleton _ _, ?_⟩
    intro x hx y hy
    simp only [List.mem_singleton] at hy
    subst hy
    simpa using hany x hx
  | true =>
    simp only [if_true]
    rw [List.pairwise_map]
    refine hp.imp ?_
    intro a b hab
    by_cases ea : eqb a item = true
    · by_cases eb : eqb b item = true
      · have ht : eqb a b = true := htrans a item b ea ((hsym item b).trans eb)
        rw [hab] at ht
        exact absurd ht (by simp)
      · simp only [if_pos ea, if_neg eb]
        cases hc : eqb item b with
        | false => rfl
        | true =>
          have ht : eqb a b = true := htrans a item b ea hc
          rw [hab] at ht
          exact absurd ht (by simp)
    · by_cases eb : eqb b item = true
      · simp only [if_neg ea, if_pos eb]
        exact Bool.eq_false_iff.mpr ea
      · simp only [if_neg ea, if_neg eb]
        exact hab

/-- A table built by a fold of addItem keeps its key schema and folds the
bodies. -/
theorem buildTable_fold_parts {α : Type} (eqb : α → α → Bool) (keys : List (α → JSKey)) :
    ∀ (items : List α) (t : IAMMapTable α), t.primaryKeys = keys →
    (items.foldl (fun t2 x => t2.addItem eqb x) t).primaryKeys = keys ∧
    (items.foldl (fun t2 x => t2.addItem eqb x) t).mapTable =
      items.foldl (fun m x => addItemM eqb x keys m) t.mapTable := by
  intro items
  induction items with
  | nil => intro t ht; exact ⟨ht, rfl⟩
  | cons x rest ih =>
    intro t ht
    have h1 : (t.addItem eqb x).primaryKeys = keys := by
      simpa [IAMMapTable.addItem] using ht
    have h2 : (t.addItem eqb x).mapTable = addItemM eqb x keys t.mapTable := by
      simp [IAMMapTable.addItem, ht]
    obtain ⟨ha, hb⟩ := ih (t.addItem eqb x) h1
    refine ⟨by simpa [List.foldl_cons] using ha, ?_⟩
    simp only [List.foldl_cons]
    rw [hb, h2]

/-- Well-formedness is preserved by a fold of inserts. -/
theorem wfm_foldAddItemM {α : Type} (eqb : α → α → Bool) (keys : List (α → JSKey)) :
    ∀ (items : List α) (m : List (JSKey × MTree α)),
    wfm (fun _ => true) keys m = true →
    wfm (fun _ => true) keys (items.foldl (fun m2 x => addItemM eqb x keys m2) m) = true := by
  intro items
  induction items with
  | nil => intro m hm; exact hm
  | cons x rest ih =>
    intro m hm
    exact ih _ (wfm_addItemM eqb x keys (fun _ => true) rfl m hm)

/-- No slot of a fold of inserts ever holds two records that are equal to each
other. -/
theorem slot_pairwise_fold {α : Type} (eqb : α → α → Bool)
    (hsym : ∀ x y, eqb x y = eqb y x)
    (htrans : ∀ x y z, eqb x y = true → eqb y z = true → eqb x z = true)
    (keys : List (α → JSKey)) :
    ∀ (items : List α) (m : List (JSKey × MTree α)) (p : List JSKey),
    wfm (fun _ => true) keys m = true → p.length = keys.length →
    (slotListM p m).Pairwise (fun x y => eqb x y = false) →
    (slotListM p (items.foldl (fun m2 x => addItemM eqb x keys m2) m)).Pairwise
      (fun x y => eqb x y = false) := by
  intro items
  induction items with
  | nil => intro m p _ _ h; exact h
  | cons x rest ih =>
    intro m p hm hp h
    refine ih _ p (wfm_addItemM eqb x keys (fun _ => true) rfl m hm) hp ?_
    rw [slotListM_addItemM eqb x keys (fun _ => true) m p hm hp]
    by_cases hpx : p = keyPath keys x
    · rw [if_pos hpx]
      exact pairwise_replaceOrAppend eqb hsym htrans x _ h
    · rw [if_neg hpx]
      exact h

/-- C3: last-write-wins insertion.  For every key schema and symmetric,
transitive record equality: (1) no terminal slot of a table built by a
sequence of addItem calls holds two records that are .equals() each other;
(2) one further insert rewrites exactly the inserted record's slot by the
in-place overwrite step (every stored equal record is replaced at its list
position, otherwise the record is appended); (3) inserting two equal records
of the same key tuple from the empty table leaves exactly the newer record at
the slot — the terminal list has length 1. -/
theorem addItem_last_write_wins {α : Type} (eqb : α → α → Bool)
    (hsym : ∀ x y, eqb x y = eqb y x)
    (htrans : ∀ x y z, eqb x y = true → eqb y z = true → eqb x z = true)
    (keys : List (α → JSKey)) (hk : keys ≠ [])
    (items : List α) (p : List JSKey) (hp : p.length = keys.length) :
    (slotListM p (buildTable eqb keys items).mapTable).Pairwise
      (fun x y => eqb x y = false) ∧
    (∀ item, slotListM (keyPath keys item)
        (addItemM eqb item keys (buildTable eqb keys items).mapTable) =
      replaceOrAppend eqb item
        (slotListM (keyPath keys item) (buildTable eqb keys items).mapTable)) ∧
    (∀ a b, eqb a b = true → keyPath keys a = keyPath keys b →
      slotListM (keyPath keys b) (addItemM eqb b keys (addItemM eqb a keys [])) = [b]) := by
  have hwf0 : wfm (fun _ => true) keys ([] : List (JSKey × MTree α)) = true :=
    wfm_nil _ keys hk
  obtain ⟨hpk, hbody⟩ := buildTable_fold_parts eqb keys items (emptyTable keys) rfl
  have hwfb : wfm (fun _ => true) keys (buildTable eqb keys items).mapTable = true := by
    rw [show (buildTable eqb keys items).mapTable =
      items.foldl (fun m x => addItemM eqb x keys m) [] from hbody]
    exact wfm_foldAddItemM eqb keys items [] hwf0
  have hlen : ∀ x : α, (keyPath keys x).length = keys.length := by
    intro x; simp [keyPath]
  refine ⟨?_, ?_, ?_⟩
  · rw [show (buildTable eqb keys items).mapTable =
      items.foldl (fun m x => addItemM eqb x keys m) [] from hbody]
    refine slot_pairwise_fold eqb hsym htrans keys items [] p hwf0 hp ?_
    rw [slotListM_nil]
    exact List.Pairwise.nil
  · intro item
    rw [slotListM_addItemM eqb item keys (fun _ => true) _ _ hwfb (hlen item), if_pos rfl]
  · intro a b hab hpath
    have hwf1 := wfm_addItemM eqb a keys (fun _ => true) rfl [] hwf0
    have h1 : slotListM (keyPath keys a) (addItemM eqb a keys []) = [a] := by
      rw [slotListM_addItemM eqb a keys (fun _ => true) [] _ hwf0 (hlen a), if_pos rfl,
        slotListM_nil, replaceOrAppend_nil]
    rw [slotListM_addItemM eqb b keys (fun _ => true) _ _ hwf1 (hlen b), if_pos rfl,
      ← hpath, h1]
    simp [replaceOrAppend, hab]

theorem addItem_last_write_wins_witness :
    featurePropertyEquals witnessPropA witnessPropB = true ∧
    slotListM (keyPath featurePropertiesKeys witnessPropB)
      (addItemM featurePropertyEquals witnessPropB featurePropertiesKeys
        (addItemM featurePropertyEquals witnessPropA featurePropertiesKeys [])) =
      [witnessPropB] := by
  have h := addItem_last_write_wins featurePropertyEquals featurePropertyEquals_symm
    featurePropertyEquals_trans featurePropertiesKeys (by simp [featurePropertiesKeys])
    [] (keyPath featurePropertiesKeys witnessPropB) (by simp [keyPath])
  exact ⟨by decide, h.2.2 witnessPropA witnessPropB (by decide) (by decide)⟩

/-- getAllSettings is the unfiltered depth-first scan of the settings table. -/
theorem getAllSettings_scan (s : IAMStorage)
    (hpk : s.featureSettings.primaryKeys = featureSettingsKeys) :
    s.getAllSettings =
      getAllItemsRec (List.replicate featureSettingsKeys.length (none : KeyFilter))
        s.featureSettings.mapTable := by
  unfold IAMStorage.getAllSettings IAMMapTable.getAllItems
  rw [hpk, if_neg (by simp [featureSettingsKeys])]
  rfl

/-- The first record of any four-filter settings query is the first record of
the full scan that passes the filters. -/
theorem getAllItems_head_find (s : IAMStorage) (fs : List KeyFilter)
    (hpk : s.featureSettings.primaryKeys = featureSettingsKeys)
    (hwf : wfm (fun _ => true) featureSettingsKeys s.featureSettings.mapTable = true)
    (hlen : fs.length = featureSettingsKeys.length) :
    (s.featureSettings.getAllItems fs).head? =
      s.getAllSettings.find? (fun x => passesFilters fs (keyPath featureSettingsKeys x)) := by
  rw [getAllSettings_scan s hpk]
  unfold IAMMapTable.getAllItems
  rw [hpk, if_neg (not_not_intro hlen),
    getAllItemsRec_eq_filter featureSettingsKeys fs (fun _ => true) _ hwf hlen]
  exact head_filter_eq_find _ _

/-- getStandardSettings agrees with the specification's Standard lookup. -/
theorem getStandardSettings_find (s : IAMStorage) (ftype : Int)
    (hpk : s.featureSettings.primaryKeys = featureSettingsKeys)
    (hwf : wfm (fun _ => true) featureSettingsKeys s.featureSettings.mapTable = true) :
    s.getStandardSettings ftype = specStandardSetting s ftype := by
  unfold IAMStorage.getStandardSettings specStandardSetting
  rw [getAllItems_head_find s _ hpk hwf (by simp [featureSettingsKeys])]
  congr 1
  funext x
  rw [Bool.eq_iff_iff]
  simp [passesFilters, passesKey, keyPath, featureSettingsKeys, and_assoc]

/-- getSettings with non-empty level name and value agrees with the
specification's Attribute-level lookup. -/
theorem getSettings_head_attribute (s : IAMStorage) (ftype : Int) (nm vl : String)
    (hpk : s.featureSettings.primaryKeys = featureSettingsKeys)
    (hwf : wfm (fun _ => true) featureSettingsKeys s.featureSettings.mapTable = true)
    (hnm : nm ≠ "") (hvl : vl ≠ "") :
    (s.getSettings ftype LEVEL_ATTRIBUTE (some nm) (some vl)).head? =
      specAttributeSetting s ftype nm vl := by
  have h1 : jsTruthyStr nm = true := by simp [jsTruthyStr, hnm]
  have h2 : jsTruthyStr vl = true := by simp [jsTruthyStr, hvl]
  unfold IAMStorage.getSettings specAttributeSetting
  rw [getAllItems_head_find s _ hpk hwf (by simp [featureSettingsKeys])]
  congr 1
  funext x
  rw [Bool.eq_iff_iff]
  simp [passesFilters, passesKey, keyPath, featureSettingsKeys, h1, h2, optStrKey_eq_str,
    and_assoc]

/-- getSettings with a non-empty level name and an undefined level value
agrees with the specification's Feature-level lookup. -/
theorem getSettings_head_feature (s : IAMStorage) (ftype : Int) (fid : String)
    (hpk : s.featureSettings.primaryKeys = featureSettingsKeys)
    (hwf : wfm (fun _ => true) featureSettingsKeys s.featureSettings.mapTable = true)
    (hfid : fid ≠ "") :
    (s.getSettings ftype LEVEL_FEATURE (some fid) none).head? =
      specFeatureSetting s ftype fid := by
  have h1 : jsTruthyStr fid = true := by simp [jsTruthyStr, hfid]
  unfold IAMStorage.getSettings specFeatureSetting
  rw [getAllItems_head_find s _ hpk hwf (by simp [featureSettingsKeys])]
  congr 1
  funext x
  rw [Bool.eq_iff_iff]
  simp [passesFilters, passesKey, keyPath, featureSettingsKeys, h1, optStrKey_eq_str,
    and_assoc]

/-- Membership in an insertion-sorted list. -/
theorem mem_insertSorted {α : Type} (le : α → α → Bool) (x : α) :
    ∀ (l : List α) (y : α), y ∈ insertSorted le x l ↔ y = x ∨ y ∈ l := by
  intro l
  induction l with
  | nil => intro y; simp [insertSorted]
  | cons z zs ih =>
    intro y
    unfold insertSorted
    by_cases hc : le x z = true
    · simp [hc]
    · have hc2 : le x z = false := by
        cases hcc : le x z
        · rfl
        · exact absurd hcc hc
      simp [hc2, ih, List.mem_cons]
      tauto

/-- The stable sort keeps exactly the input's members. -/
theorem mem_sortJS {α : Type} (le : α → α → Bool) :
    ∀ (l : List α) (y : α), y ∈ sortJS le l ↔ y ∈ l := by
  intro l
  induction l with
  | nil => intro y; simp [sortJS]
  | cons z zs ih =>
    intro y
    show y ∈ insertSorted le z (sortJS le zs) ↔ _
    rw [mem_insertSorted, List.mem_cons, ih]

/-- Congruence of foldl in its step function over a fixed list. -/
theorem foldl_congr_mem {α β : Type} (l : List α) (f g : β → α → β)
    (h : ∀ a ∈ l, ∀ b, f b a = g b a) :
    ∀ b0 : β, l.foldl f b0 = l.foldl g b0 := by
  induction l with
  | nil => intro b0; rfl
  | cons a rest ih =>
    intro b0
    rw [List.foldl_cons, List.foldl_cons, h a (List.mem_cons_self a rest) b0]
    exact ih (fun a2 ha2 b => h a2 (List.mem_cons_of_mem a ha2) b) _

/-- Folding over a flatMap folds the chunks in order. -/
theorem foldl_flatMap {α β γ : Type} (l : List α) (h : α → List β) (f : γ → β → γ) :
    ∀ c : γ, (l.flatMap h).foldl f c = l.foldl (fun c2 a => (h a).foldl f c2) c := by
  induction l with
  | nil => intro c; rfl
  | cons a rest ih =>
    intro c
    rw [List.flatMap_cons, List.foldl_append, List.foldl_cons, ih]

/-- One step of the attribute loop computes the fold of the specification's
merge chunk for that attribute, whenever its name and value are non-empty (so
the query's truthiness guards filter exactly). -/
theorem settingsOfFeatureStep_spec (s : IAMStorage) (ftype y1 y2 : Int)
    (hpk : s.featureSettings.primaryKeys = featureSettingsKeys)
    (hwf : wfm (fun _ => true) featureSettingsKeys s.featureSettings.mapTable = true)
    (a : FeatureAttribute) (hna : a.propertyName ≠ "") (hva : a.propertyValue ≠ "")
    (r : FeatureSettings) :
    settingsOfFeatureStep s ftype y1 y2 r a =
      (match specAttributeSetting s ftype a.propertyName a.propertyValue with
        | some st => st :: (if fromYearInWindow y1 y2 a then
            (specAttributeSetting s ftype a.propertyName "_iam_hasChanged").toList else [])
        | none => []).foldl FeatureSettings.merge r := by
  simp only [settingsOfFeatureStep]
  rw [getSettings_head_attribute s ftype a.propertyName a.propertyValue hpk hwf hna hva,
    getSettings_head_attribute s ftype a.propertyName "_iam_hasChanged" hpk hwf hna
      (by decide)]
  cases hq : specAttributeSetting s ftype a.propertyName a.propertyValue with
  | none => rfl
  | some st =>
    cases hw : fromYearInWindow y1 y2 a with
    | false => simp [hw]
    | true =>
      cases hq2 : specAttributeSetting s ftype a.propertyName "_iam_hasChanged" with
      | some hc => simp [hw]
      | none => simp [hw]

/-- C2: getSettingsOfFeature refines the specification's resolution algorithm:
starting from the Standard-level setting of the feature type, the feature's
attributes overlapping the requested window are processed in ascending
fromYear order, each merging its matching Attribute-level setting (and, when
its fromYear lies inside the window, the matching hasChanged setting), and an
existing Feature-level setting is merged last.  The hypotheses ask for a
well-formed settings table with the settings schema, a stored feature with
non-empty attribute names and values, and a non-empty feature id (the source's
truthiness guards otherwise widen the queries); the stored settings instances
are never mutated — the embedding is pure and the source's merge chains
allocate fresh objects. -/
theorem getSettingsOfFeature_refines_spec (s : IAMStorage) (ftype : Int) (fid : String)
    (y1 y2 : Int) (f : ExtendedFeature)
    (hpk : s.featureSettings.primaryKeys = featureSettingsKeys)
    (hwf : wfm (fun _ => true) featureSettingsKeys s.featureSettings.mapTable = true)
    (hf : s.getFeature ftype fid = some f)
    (hid : f.id = fid)
    (hfid : fid ≠ "")
    (hatt : ∀ a ∈ f.attributes, a.propertyName ≠ "" ∧ a.propertyValue ≠ "") :
    s.getSettingsOfFeature ftype fid y1 y2 = specResolveSettings s ftype f y1 y2 := by
  unfold IAMStorage.getSettingsOfFeature specResolveSettings
  rw [getStandardSettings_find s ftype hpk hwf]
  cases hstd : specStandardSetting s ftype with
  | none => rfl
  | some ret0 =>
    simp only [hf, Option.map_some']
    rw [getSettings_head_feature s ftype fid hpk hwf hfid]
    unfold specMergeSequence
    rw [hid, List.foldl_append]
    have hatts : f.getAttributes (overlapsWindow y1 y2) =
        f.attributes.filter (specWindowOverlaps y1 y2) := rfl
    rw [hatts]
    have hstep : (sortByFromYear (f.attributes.filter (specWindowOverlaps y1 y2))).foldl
        (settingsOfFeatureStep s ftype y1 y2) ret0 =
      ((sortByFromYear (f.attributes.filter (specWindowOverlaps y1 y2))).flatMap
        (fun a => match specAttributeSetting s ftype a.propertyName a.propertyValue with
          | some st => st :: (if fromYearInWindow y1 y2 a then
              (specAttributeSetting s ftype a.propertyName "_iam_hasChanged").toList else [])
          | none => [])).foldl FeatureSettings.merge ret0 := by
      rw [foldl_flatMap]
      refine foldl_congr_mem _ _ _ ?_ ret0
      intro a ha rb
      have hmem : a ∈ f.attributes := by
        have h2 := (mem_sortJS fromYearLe _ a).mp ha
        exact List.mem_of_mem_filter h2
      obtain ⟨hna, hva⟩ := hatt a hmem
      exact settingsOfFeatureStep_spec s ftype y1 y2 hpk hwf a hna hva rb
    rw [hstep]
    cases hfs : specFeatureSetting s ftype fid with
    | some fs => simp
    | none => simp

theorem getSettingsOfFeature_refines_spec_witness :
    ("A" : String) ≠ "" ∧
    witnessResolutionStore.getSettingsOfFeature POINT "A" 1920 1930 =
      specResolveSettings witnessResolutionStore POINT witnessFeatureLoaded 1920 1930 :=
  ⟨by decide,
    getSettingsOfFeature_refines_spec witnessResolutionStore POINT "A" 1920 1930
      witnessFeatureLoaded rfl (by decide) (by decide) rfl (by decide) (by decide)⟩

end IAM
